/-
  Verification of the CLI File Organizer (organizer.py) against its
  natural-language specification.

  Shallow embedding conventions:
  * A filesystem path is a directory (list of components) plus a file name,
    mirroring pathlib's parent / name decomposition.
  * The filesystem is an association list from file paths to contents; the
    content value (a Nat) doubles as the file's size in bytes for
    `stat().st_size`.  Directories are a separate list of directory paths;
    `mkdir(parents=True, exist_ok=True)` inserts a directory and all its
    ancestors.
  * The `re` regular-expression engine is abstracted as a structure holding a
    validity test (compile succeeds) and a search test (case-insensitive
    `re.search`); `re.error` on an invalid pattern is modelled by the validity
    test returning false.
  * Python exceptions raised by `shutil.move` / `shutil.copy2` (permission
    denied, vanished file, ...) are modelled by a fault oracle on the source
    path; the surrounding `try/except` of `organize_files` is the catch site.
  * Timestamps are not modelled (no claim mentions them); the persisted undo
    log is handed to `undo_operations` as its parsed list of operation
    records, with `none` standing for a missing or unparseable log file.
-/
import Mathlib

namespace Organizer

/-- A directory path: list of path components from the root. -/
abbrev Dir := List String

/-- A file path as pathlib sees it: parent directory plus final name. -/
structure FsPath where
  dir : Dir
  name : String
deriving DecidableEq

/-- The file part of a filesystem: association list path ↦ content.
The content Nat also serves as the file's size for `stat().st_size`. -/
abbrev FileMap := List (FsPath × Nat)

/-- Filesystem state: files plus the set of existing directories. -/
structure Sys where
  files : FileMap
  dirs : List Dir
deriving DecidableEq

/-- Look up a file's content at a path (first binding wins). -/
def lookupFile : FileMap → FsPath → Option Nat
  | [], _ => none
  | (q, c) :: rest, p => if q = p then some c else lookupFile rest p

/-- Remove every binding at a path. -/
def eraseKey (p : FsPath) : FileMap → FileMap
  | [] => []
  | (q, c) :: rest => if q = p then eraseKey p rest else (q, c) :: eraseKey p rest

/-- Overwrite the binding at a path. -/
def setFile (p : FsPath) (c : Nat) (fs : FileMap) : FileMap :=
  (p, c) :: eraseKey p fs

theorem lookupFile_eraseKey (fs : FileMap) (p q : FsPath) :
    lookupFile (eraseKey p fs) q = if q = p then none else lookupFile fs q := by
  induction fs with
  | nil => simp [eraseKey, lookupFile]
  | cons kv rest ih =>
    obtain ⟨r, c⟩ := kv
    by_cases hrp : r = p
    · by_cases hqp : q = p
      · simp only [eraseKey, if_pos hrp, ih, if_pos hqp]
      · have hrq : ¬ r = q := fun h => hqp (h.symm.trans hrp)
        simp only [eraseKey, if_pos hrp, ih, if_neg hqp, lookupFile, if_neg hrq]
    · by_cases hrq : r = q
      · have hqp : ¬ q = p := fun h => hrp (hrq.trans h)
        simp only [eraseKey, if_neg hrp, lookupFile, if_pos hrq, if_neg hqp]
      · simp only [eraseKey, if_neg hrp, lookupFile, if_neg hrq, ih]

theorem lookupFile_setFile (fs : FileMap) (p q : FsPath) (c : Nat) :
    lookupFile (setFile p c fs) q = if q = p then some c else lookupFile fs q := by
  by_cases h : q = p
  · simp only [setFile, lookupFile, if_pos h.symm, if_pos h]
  · have hpq : ¬ p = q := fun hh => h hh.symm
    simp only [setFile, lookupFile, if_neg hpq, lookupFile_eraseKey, if_neg h]

theorem lookupFile_isSome_of_mem_keys (fs : FileMap) (p : FsPath)
    (h : p ∈ fs.map Prod.fst) : (lookupFile fs p).isSome := by
  induction fs with
  | nil => simp at h
  | cons kv rest ih =>
    obtain ⟨q, c⟩ := kv
    by_cases hq : q = p
    · simp [lookupFile, hq]
    · have h2 : p ∈ rest.map Prod.fst := by
        rcases (by simpa using h : p = q ∨ p ∈ rest.map Prod.fst) with h1 | h1
        · exact absurd h1.symm hq
        · exact h1
      simpa [lookupFile, hq] using ih h2

theorem mem_keys_of_lookupFile_isSome (fs : FileMap) (p : FsPath)
    (h : (lookupFile fs p).isSome) : p ∈ fs.map Prod.fst := by
  induction fs with
  | nil => simp [lookupFile] at h
  | cons kv rest ih =>
    obtain ⟨q, c⟩ := kv
    by_cases hq : q = p
    · simp [hq]
    · simp only [lookupFile, if_neg hq] at h
      simp only [List.map_cons, List.mem_cons]
      exact Or.inr (ih h)

/-- `shutil.move(src, dst)`: relocate the content from `src` to `dst`. -/
def Sys.moveFile (s : Sys) (src dst : FsPath) : Sys :=
  match lookupFile s.files src with
  | some c => { s with files := setFile dst c (eraseKey src s.files) }
  | none => s

/-- `shutil.copy2(src, dst)`: duplicate the content of `src` at `dst`. -/
def Sys.copyFile (s : Sys) (src dst : FsPath) : Sys :=
  match lookupFile s.files src with
  | some c => { s with files := setFile dst c s.files }
  | none => s

/-- `Path(p).unlink()`: delete the file at `p`. -/
def Sys.unlink (s : Sys) (p : FsPath) : Sys :=
  { s with files := eraseKey p s.files }

/-- All ancestor directories of a directory path, itself included. -/
def prefixesOf (d : Dir) : List Dir :=
  (List.range (d.length + 1)).map (fun n => d.take n)

/-- `Path(d).mkdir(parents=True, exist_ok=True)`. -/
def Sys.mkdir (s : Sys) (d : Dir) : Sys :=
  { s with dirs := prefixesOf d ++ s.dirs }

/-- `Path(p).exists()` for a file-shaped path: true when a file is recorded at
`p` or a directory exists whose path spells `p.dir/p.name`. -/
def Sys.pathTaken (s : Sys) (p : FsPath) : Bool :=
  (lookupFile s.files p).isSome || s.dirs.contains (p.dir ++ [p.name])

/-- `Path(d).exists()` for a directory-shaped path. -/
def Sys.dirPathExists (s : Sys) (d : Dir) : Bool :=
  s.dirs.contains d ||
    (match d.getLast? with
     | some n => (lookupFile s.files ⟨d.dropLast, n⟩).isSome
     | none => false)

/-- `Path(d).is_dir()`. -/
def Sys.isDir (s : Sys) (d : Dir) : Bool :=
  s.dirs.contains d

/-- Index (from the left) of the last occurrence of a character. -/
def lastIdxOf (ch : Char) : List Char → Option Nat
  | [] => none
  | c :: cs =>
    match lastIdxOf ch cs with
    | some i => some (i + 1)
    | none => if c = ch then some 0 else none

/-- pathlib's `stem`/`suffix` split of a file name: the suffix starts at the
last dot provided that dot is neither the first nor the last character. -/
def stemSuffix (name : String) : String × String :=
  let cs := name.toList
  match lastIdxOf '.' cs with
  | some i =>
    if 0 < i ∧ i < cs.length - 1 then (String.mk (cs.take i), String.mk (cs.drop i))
    else (name, "")
  | none => (name, "")

/-- Fuel-driven decimal rendering of a natural number (fuel exceeds the value,
so the fallback never fires). -/
def decCharsAux : Nat → Nat → List Char
  | 0, _ => []
  | fuel + 1, n =>
    if n < 10 then [Nat.digitChar n]
    else decCharsAux fuel (n / 10) ++ [Nat.digitChar (n % 10)]

/-- Decimal digits of a natural number, as the f-string `{counter}` renders. -/
def decChars (n : Nat) : List Char := decCharsAux (n + 1) n

/-- Decimal string of a natural number. -/
def decStr (n : Nat) : String := String.mk (decChars n)

theorem decCharsAux_congr : ∀ f₁ f₂ n, n < f₁ → n < f₂ →
    decCharsAux f₁ n = decCharsAux f₂ n := by
  intro f₁
  induction f₁ with
  | zero => intro f₂ n h1; omega
  | succ g ih =>
    intro f₂ n h1 h2
    match f₂, h2 with
    | h + 1, h2 =>
      by_cases hn : n < 10
      · simp [decCharsAux, hn]
      · have hdiv : n / 10 < n := Nat.div_lt_self (by omega) (by omega)
        simp only [decCharsAux, if_neg hn]
        rw [ih h (n / 10) (by omega) (by omega)]

theorem decCharsAux_succ (fuel n : Nat) :
    decCharsAux (fuel + 1) n = if n < 10 then [Nat.digitChar n]
      else decCharsAux fuel (n / 10) ++ [Nat.digitChar (n % 10)] := rfl

theorem decChars_unfold (n : Nat) :
    decChars n = if n < 10 then [Nat.digitChar n]
                 else decChars (n / 10) ++ [Nat.digitChar (n % 10)] := by
  by_cases hn : n < 10
  · simp [decChars, decCharsAux_succ, hn]
  · have hdiv : n / 10 < n := Nat.div_lt_self (by omega) (by omega)
    rw [decChars, decCharsAux_succ, if_neg hn, if_neg hn,
      decCharsAux_congr n (n / 10 + 1) (n / 10) (by omega) (by omega)]
    rfl

theorem decChars_ne_nil (n : Nat) : decChars n ≠ [] := by
  rw [decChars_unfold]
  by_cases h : n < 10 <;> simp [h]

theorem digitChar_inj_lt (a b : Nat) (ha : a < 10) (hb : b < 10)
    (h : Nat.digitChar a = Nat.digitChar b) : a = b := by
  have key : ∀ x y : Fin 10, Nat.digitChar x.val = Nat.digitChar y.val → x = y := by decide
  exact congrArg Fin.val (key ⟨a, ha⟩ ⟨b, hb⟩ h)

theorem decChars_injective (m : Nat) : ∀ n, decChars m = decChars n → m = n := by
  induction m using Nat.strong_induction_on with
  | _ m ih =>
    intro n h
    rw [decChars_unfold m, decChars_unfold n] at h
    by_cases hm : m < 10 <;> by_cases hn : n < 10
    · simp only [if_pos hm, if_pos hn] at h
      exact digitChar_inj_lt m n hm hn (List.cons.inj h).1
    · exfalso
      simp only [if_pos hm, if_neg hn] at h
      have hlen := congrArg List.length h
      have hne := decChars_ne_nil (n / 10)
      cases hxs : decChars (n / 10) with
      | nil => exact hne hxs
      | cons a l => rw [hxs] at hlen; simp [List.length_append] at hlen
    · exfalso
      simp only [if_neg hm, if_pos hn] at h
      have hlen := congrArg List.length h
      have hne := decChars_ne_nil (m / 10)
      cases hxs : decChars (m / 10) with
      | nil => exact hne hxs
      | cons a l => rw [hxs] at hlen; simp [List.length_append] at hlen
    · simp only [if_neg hm, if_neg hn] at h
      obtain ⟨h1, h2⟩ := List.append_inj' h rfl
      have hdiv : m / 10 < m := Nat.div_lt_self (by omega) (by omega)
      have hq := ih (m / 10) hdiv (n / 10) h1
      have hr := digitChar_inj_lt (m % 10) (n % 10)
        (Nat.mod_lt _ (by omega)) (Nat.mod_lt _ (by omega)) (List.cons.inj h2).1
      omega

theorem strData_append (s t : String) : (s ++ t).data = s.data ++ t.data := rfl

/-- The collision-probe name `f"{stem}_{counter}{suffix}"`. -/
def candName (stem suffix : String) (counter : Nat) : String :=
  stem ++ "_" ++ decStr counter ++ suffix

theorem candName_injective (stem suffix : String) (m n : Nat)
    (h : candName stem suffix m = candName stem suffix n) : m = n := by
  have hd := congrArg String.data h
  simp only [candName, strData_append] at hd
  exact decChars_injective m n (List.append_cancel_left (List.append_cancel_right hd))

/-- Abstract model of Python's `re` module: which pattern strings compile, and
what a compiled, case-insensitive `re.search` reports. -/
structure RegexEngine where
  valid : String → Bool
  search : String → String → Bool

/-- `FileOrganizer.matches_pattern`: a missing or empty pattern always matches;
an invalid pattern raises `re.error`, which is caught, logged as a warning,
and reported as True. -/
def matches_pattern (eng : RegexEngine) (filename : String)
    (pattern : Option String) : Bool :=
  match pattern with
  | none => true
  | some p =>
    if p = "" then true
    else if eng.valid p then eng.search p filename else true

/-- `FileOrganizer.check_file_size`: stat the file; a size below `min_size` or
above `max_size` fails; a failed stat (`OSError`) passes. -/
def check_file_size (s : Sys) (file_path : FsPath)
    (min_size max_size : Option Nat) : Bool :=
  match lookupFile s.files file_path with
  | none => true
  | some file_size =>
    if min_size.any (fun m => decide (file_size < m)) then false
    else if max_size.any (fun m => decide (file_size > m)) then false
    else true

/-- Python's `str.lower()` (ASCII case folding), character by character.
(`String.toLower` itself is defined by well-founded recursion in core and
does not evaluate inside the kernel; this structural version does.) -/
def strLower (s : String) : String := String.mk (s.data.map Char.toLower)

/-- Iteration core of `FileOrganizer.get_category`: scan the categories in
table order and return the first whose lowercased extension list contains the
lowercased extension. -/
def get_category_go (ext_lower : String) : List (String × List String) → String
  | [] => "Other"
  | (category, extensions) :: rest =>
    if (extensions.map strLower).contains ext_lower then category
    else get_category_go ext_lower rest

/-- `FileOrganizer.get_category`. -/
def get_category (file_types : List (String × List String))
    (file_extension : String) : String :=
  get_category_go (strLower file_extension) file_types

/-- The Category Resolver as the spec words it (comparison point for C4):
first category in table iteration order whose extension set contains the
case-normalized extension, else the sentinel "Other". -/
def resolve_spec (table : List (String × List String)) (ext : String) : String :=
  match table.find? (fun ce => (ce.2.map strLower).contains (strLower ext)) with
  | some ce => ce.1
  | none => "Other"

/-- `DEFAULT_FILE_TYPES` from organizer.py (dict in insertion order). -/
def DEFAULT_FILE_TYPES : List (String × List String) :=
  [("Images", [".jpg", ".jpeg", ".png", ".gif", ".bmp", ".svg", ".webp", ".tiff", ".ico"]),
   ("Documents", [".pdf", ".docx", ".txt", ".rtf", ".odt", ".pages", ".doc"]),
   ("Videos", [".mp4", ".mov", ".avi", ".mkv", ".wmv", ".flv", ".webm", ".m4v"]),
   ("Audio", [".mp3", ".wav", ".flac", ".aac", ".ogg", ".wma", ".m4a"]),
   ("Archives", [".zip", ".tar.gz", ".rar", ".7z", ".tar", ".gz", ".bz2"]),
   ("Code", [".py", ".js", ".html", ".css", ".java", ".cpp", ".c", ".h", ".php", ".rb"]),
   ("Spreadsheets", [".xlsx", ".xls", ".csv", ".ods", ".numbers"]),
   ("Presentations", [".pptx", ".ppt", ".odp", ".key"]),
   ("Executables", [".exe", ".msi", ".dmg", ".pkg", ".deb", ".rpm", ".app"]),
   ("Fonts", [".ttf", ".otf", ".woff", ".woff2", ".eot"])]

/-- The probe loop of `get_unique_filename`: try `stem_1suffix`,
`stem_2suffix`, ... and return the first path not taken.  The Python loop is
unbounded; the fuel argument makes it structural, and adequate fuel is proved
sufficient below. -/
def findFree (s : Sys) (parent : Dir) (stem sfx : String) : Nat → Nat → Option FsPath
  | _, 0 => none
  | counter, fuel + 1 =>
    let new_path : FsPath := ⟨parent, candName stem sfx counter⟩
    if ¬ s.pathTaken new_path then some new_path
    else findFree s parent stem sfx (counter + 1) fuel

/-- `FileOrganizer.get_unique_filename`: return the target unchanged when
nothing exists there, else probe counters starting at 1.  Fuel
`s.files.length + s.dirs.length + 1` is proved sufficient below, so the
`getD` fallback never fires. -/
def get_unique_filename (s : Sys) (target_path : FsPath) : FsPath :=
  if ¬ s.pathTaken target_path then target_path
  else
    let stem := (stemSuffix target_path.name).1
    let sfx := (stemSuffix target_path.name).2
    let parent := target_path.dir
    (findFree s parent stem sfx 1 (s.files.length + s.dirs.length + 1)).getD target_path

/-- The recognized `**options` of `organize_files`. -/
structure Options where
  dry_run : Bool
  recursive : Bool
  copy_files : Bool
  pattern : Option String
  exclude_pattern : Option String
  min_size : Option Nat
  max_size : Option Nat
deriving DecidableEq

/-- One entry of the operations ledger (the timestamp field is not modelled). -/
structure TransferRecord where
  operation : String
  source : FsPath
  destination : FsPath
  category : String
deriving DecidableEq

/-- A printed action line: tag, first path, second path. -/
abbrev Report := String × FsPath × FsPath

/-- The organizer's run state: the filesystem, `self.operations_log`, the two
counters, console output, and the number of caught per-file errors. -/
structure OrgState where
  sys : Sys
  operations_log : List TransferRecord
  files_processed : Nat
  files_moved : Nat
  reports : List Report
  errors_logged : Nat
deriving DecidableEq

/-- Python truthiness of an optional string (`if exclude_pattern and ...`). -/
def optTruthy : Option String → Bool
  | none => false
  | some s => s ≠ ""

/-- The per-candidate body of the `organize_files` loop, `try/except`
included: a filtered-out candidate is skipped silently; otherwise the
category, target directory and collision-free target are computed; in
dry-run mode the intended action is only reported; otherwise the target
directory is created and the move or copy performed.  A fault (an exception
from the filesystem operation) is caught and logged, leaving the mkdir and
the `files_processed` increment already made in place and everything else
untouched. -/
def processFile (eng : RegexEngine) (fault : FsPath → Bool)
    (file_types : List (String × List String)) (dest_path : Dir)
    (opts : Options) (st : OrgState) (file_path : FsPath) : OrgState :=
  if ¬ matches_pattern eng file_path.name opts.pattern then st
  else if optTruthy opts.exclude_pattern &&
      matches_pattern eng file_path.name opts.exclude_pattern then st
  else if ¬ check_file_size st.sys file_path opts.min_size opts.max_size then st
  else
    let st1 := { st with files_processed := st.files_processed + 1 }
    let file_extension := (stemSuffix file_path.name).2
    let file_category := get_category file_types file_extension
    let target_dir := dest_path ++ [file_category]
    let target_file := get_unique_filename st1.sys ⟨target_dir, file_path.name⟩
    if opts.dry_run then
      { st1 with reports := st1.reports ++
          [((if opts.copy_files then "would-copy" else "would-move"),
            file_path, target_file)] }
    else
      let sys1 := st1.sys.mkdir target_dir
      if fault file_path then
        { st1 with sys := sys1, errors_logged := st1.errors_logged + 1 }
      else
        let sys2 := if opts.copy_files then sys1.copyFile file_path target_file
                    else sys1.moveFile file_path target_file
        { st1 with
            sys := sys2,
            operations_log := st1.operations_log ++
              [⟨(if opts.copy_files then "copy" else "move"),
                file_path, target_file, file_category⟩],
            files_moved := st1.files_moved + 1,
            reports := st1.reports ++
              [((if opts.copy_files then "copied" else "moved"),
                file_path, target_file)] }

/-- The candidate enumeration: `rglob("*")` (all files under the source tree)
or `iterdir()` (direct children only), fixed before any mutation begins.  The
listing order is the association-list order of the filesystem state. -/
def enumerate (s : Sys) (src : Dir) (recursive : Bool) : List FsPath :=
  (s.files.map Prod.fst).filter
    (fun p => if recursive then src.isPrefixOf p.dir else p.dir = src)

/-- Folding the per-candidate body over the enumerated candidates. -/
def organizeList (eng : RegexEngine) (fault : FsPath → Bool)
    (file_types : List (String × List String)) (dest_path : Dir)
    (opts : Options) (st : OrgState) (files : List FsPath) : OrgState :=
  files.foldl (processFile eng fault file_types dest_path opts) st

/-- The abort-level failures of `organize_files`. -/
inductive OrgError
  | fileNotFound
  | notADirectory
deriving DecidableEq

/-- `FileOrganizer.organize_files` on a fresh organizer (empty ledger):
validates the source, enumerates candidates, processes each, and returns
`(files_processed, files_moved)` along with the final state.  An error result
means the call raised before touching any file — no state, ledger, or
counters are produced. -/
def organize_files (eng : RegexEngine) (fault : FsPath → Bool)
    (file_types : List (String × List String)) (source destination : Dir)
    (opts : Options) (sys : Sys) : Except OrgError (Nat × Nat × OrgState) :=
  if ¬ sys.dirPathExists source then .error .fileNotFound
  else if ¬ sys.isDir source then .error .notADirectory
  else
    let files := enumerate sys source opts.recursive
    let final := organizeList eng fault file_types destination opts
      ⟨sys, [], 0, 0, [], 0⟩ files
    .ok (final.files_processed, final.files_moved, final)

/-- Result of `undo_operations`: the returned counter, the filesystem, and
the printed lines. -/
structure UndoResult where
  undone_count : Nat
  sys : Sys
  reports : List Report
deriving DecidableEq

/-- One iteration of the undo loop over a ledger record.  The branch guard
`Path(destination).exists()` is `Sys.pathTaken` — true when a file or a
directory occupies the destination path — exactly as in
`get_unique_filename`. -/
def undoStep (dry_run : Bool) (acc : UndoResult) (r : TransferRecord) : UndoResult :=
  if dry_run then
    { acc with reports := acc.reports ++ [("would-undo", r.destination, r.source)] }
  else if r.operation = "move" && acc.sys.pathTaken r.destination then
    let sys1 := acc.sys.mkdir r.source.dir
    { acc with
        sys := sys1.moveFile r.destination r.source,
        undone_count := acc.undone_count + 1,
        reports := acc.reports ++ [("undone", r.destination, r.source)] }
  else if r.operation = "copy" && acc.sys.pathTaken r.destination then
    { acc with
        sys := acc.sys.unlink r.destination,
        undone_count := acc.undone_count + 1,
        reports := acc.reports ++ [("removed-copy", r.destination, r.source)] }
  else acc

/-- `FileOrganizer.undo_operations`.  `log_data = none` models a missing or
unparseable log file (`FileNotFoundError` / `JSONDecodeError` / `KeyError`
caught at the top, returning 0); otherwise the parsed `operations` list is
replayed in reversed order. -/
def undo_operations (log_data : Option (List TransferRecord)) (dry_run : Bool)
    (sys : Sys) : UndoResult :=
  match log_data with
  | none => ⟨0, sys, []⟩
  | some operations => operations.reverse.foldl (undoStep dry_run) ⟨0, sys, []⟩

/-- Outcome of opening and JSON-parsing the configuration file. -/
inductive ConfigSource
  | absent
  | ioError
  | badJson
  | parsed (table : List (String × List String))

/-- Python exceptions relevant to `load_config`. -/
inductive PyExc
  | typeError
  | ioError
  | jsonDecodeError
deriving DecidableEq

/-- An entry of an `except (...)` tuple: which exceptions the named class
matches, and whether the class derives from BaseException. -/
structure ExceptClass where
  matchesExc : PyExc → Bool
  isExceptionClass : Bool

/-- Evaluating `except (c1, c2): handler` against a raised exception, as
CPython does: a clause entry that is not an exception class makes the match
itself raise TypeError; otherwise the handler runs when some entry matches,
and the exception propagates when none does. -/
def runHandler {α : Type} (clause : List ExceptClass) (raised : PyExc)
    (handler : Except PyExc α) (reraise : Except PyExc α) : Except PyExc α :=
  if clause.any (fun c => !c.isExceptionClass) then .error .typeError
  else if clause.any (fun c => c.matchesExc raised) then handler
  else reraise

/-- The clause `(json.JSONDecoder, IOError)` of `load_config`:
`json.JSONDecoder` is the JSON-decoding helper class (a typo for
`json.JSONDecodeError`) and does not derive from BaseException. -/
def loadConfigClause : List ExceptClass :=
  [⟨fun _ => false, false⟩,
   ⟨fun e => e = .ioError, true⟩]

/-- `FileOrganizer.load_config`: an absent file logs a warning and returns
False; a successfully parsed file replaces `self.file_types` and returns
True; an `IOError` or `json.JSONDecodeError` raised inside the `try` reaches
the handler clause, whose evaluation is modelled by `runHandler` (the handler
body would log the error and return False with the table untouched). -/
def load_config (cfg : ConfigSource) (file_types : List (String × List String)) :
    Except PyExc (Bool × List (String × List String)) :=
  match cfg with
  | .absent => .ok (false, file_types)
  | .ioError =>
    runHandler loadConfigClause .ioError
      (.ok (false, file_types)) (.error .ioError)
  | .badJson =>
    runHandler loadConfigClause .jsonDecodeError
      (.ok (false, file_types)) (.error .jsonDecodeError)
  | .parsed table => .ok (true, table)

/- ------------------------------------------------------------------ -/
/- Helper lemmas.                                                      -/
/- ------------------------------------------------------------------ -/

theorem get_category_go_eq_find (ext_lower : String)
    (table : List (String × List String)) :
    get_category_go ext_lower table =
      match table.find? (fun ce => (ce.2.map strLower).contains ext_lower) with
      | some ce => ce.1
      | none => "Other" := by
  induction table with
  | nil => rfl
  | cons ce rest ih =>
    obtain ⟨cat, exts⟩ := ce
    cases h : (exts.map strLower).contains ext_lower with
    | true => simp only [get_category_go, List.find?_cons, h]; simp
    | false => simp only [get_category_go, List.find?_cons, h, ih]; simp

theorem undo_foldl_dry (ops : List TransferRecord) (acc : UndoResult) :
    ops.foldl (undoStep true) acc =
      ⟨acc.undone_count, acc.sys,
       acc.reports ++ ops.map (fun r => ("would-undo", r.destination, r.source))⟩ := by
  induction ops generalizing acc with
  | nil => simp
  | cons r rest ih =>
    simp only [List.foldl_cons, List.map_cons]
    rw [ih]
    simp [undoStep, List.append_assoc]

theorem undoStep_false_decomp (acc : UndoResult) (r : TransferRecord) :
    undoStep false acc r =
      ⟨acc.undone_count + (undoStep false ⟨0, acc.sys, []⟩ r).undone_count,
       (undoStep false ⟨0, acc.sys, []⟩ r).sys,
       acc.reports ++ (undoStep false ⟨0, acc.sys, []⟩ r).reports⟩ := by
  cases hm : (decide (r.operation = "move") && acc.sys.pathTaken r.destination) <;>
  cases hc : (decide (r.operation = "copy") && acc.sys.pathTaken r.destination) <;>
  simp [undoStep, hm, hc]

theorem undo_foldl_false_decomp (ops : List TransferRecord) (acc : UndoResult) :
    ops.foldl (undoStep false) acc =
      ⟨acc.undone_count + (ops.foldl (undoStep false) ⟨0, acc.sys, []⟩).undone_count,
       (ops.foldl (undoStep false) ⟨0, acc.sys, []⟩).sys,
       acc.reports ++ (ops.foldl (undoStep false) ⟨0, acc.sys, []⟩).reports⟩ := by
  induction ops generalizing acc with
  | nil => simp
  | cons r rest ih =>
    simp only [List.foldl_cons]
    rw [ih (undoStep false acc r), undoStep_false_decomp acc r,
        ih (undoStep false ⟨0, acc.sys, []⟩ r)]
    simp [Nat.add_assoc, List.append_assoc]

theorem findFree_none_all_taken (s : Sys) (parent : Dir) (stem sfx : String) :
    ∀ fuel counter, findFree s parent stem sfx counter fuel = none →
      ∀ i, counter ≤ i → i < counter + fuel →
        s.pathTaken ⟨parent, candName stem sfx i⟩ = true := by
  intro fuel
  induction fuel with
  | zero => intro counter _ i h1 h2; omega
  | succ f ih =>
    intro counter h i h1 h2
    cases ht : s.pathTaken ⟨parent, candName stem sfx counter⟩ with
    | false => simp [findFree, ht] at h
    | true =>
      simp only [findFree, ht] at h
      by_cases hic : i = counter
      · rw [hic]; exact ht
      · exact ih (counter + 1) (by simpa using h) i (by omega) (by omega)

theorem findFree_some_least (s : Sys) (parent : Dir) (stem sfx : String) :
    ∀ fuel counter p, findFree s parent stem sfx counter fuel = some p →
      ∃ N, counter ≤ N ∧ p = ⟨parent, candName stem sfx N⟩ ∧
        s.pathTaken ⟨parent, candName stem sfx N⟩ = false ∧
        ∀ m, counter ≤ m → m < N → s.pathTaken ⟨parent, candName stem sfx m⟩ = true := by
  intro fuel
  induction fuel with
  | zero => intro counter p h; simp [findFree] at h
  | succ f ih =>
    intro counter p h
    cases ht : s.pathTaken ⟨parent, candName stem sfx counter⟩ with
    | false =>
      simp only [findFree, ht] at h
      refine ⟨counter, Nat.le_refl _, ?_, ht, fun m hm1 hm2 => by omega⟩
      simpa using h.symm
    | true =>
      simp only [findFree, ht] at h
      obtain ⟨N, h1, h2, h3, h4⟩ := ih (counter + 1) p (by simpa using h)
      refine ⟨N, by omega, h2, h3, fun m hm1 hm2 => ?_⟩
      by_cases hmc : m = counter
      · rw [hmc]; exact ht
      · exact h4 m (by omega) hm2

/-- Encode a file path as a directory path (injectively). -/
def encPath (p : FsPath) : Dir := p.dir ++ [p.name]

theorem encPath_injective (p q : FsPath) (h : encPath p = encPath q) : p = q := by
  obtain ⟨d1, n1⟩ := p
  obtain ⟨d2, n2⟩ := q
  simp only [encPath] at h
  obtain ⟨h1, h2⟩ := List.append_inj' h rfl
  simp [h1, List.cons.inj h2]

theorem pathTaken_mem_enc (s : Sys) (p : FsPath)
    (h : s.pathTaken p = true) :
    encPath p ∈ s.files.map (fun kv => encPath kv.1) ++ s.dirs := by
  have h0 : (lookupFile s.files p).isSome = true ∨ p.dir ++ [p.name] ∈ s.dirs := by
    simpa [Sys.pathTaken] using h
  rcases h0 with h1 | h1
  · have := mem_keys_of_lookupFile_isSome s.files p h1
    refine List.mem_append.mpr (Or.inl ?_)
    obtain ⟨kv, hkv, hfst⟩ := List.mem_map.mp this
    exact List.mem_map.mpr ⟨kv, hkv, by rw [hfst]⟩
  · exact List.mem_append.mpr (Or.inr (by simpa [encPath] using h1))

theorem findFree_total (s : Sys) (parent : Dir) (stem sfx : String) :
    findFree s parent stem sfx 1 (s.files.length + s.dirs.length + 1) ≠ none := by
  intro hnone
  set K := s.files.length + s.dirs.length with hK
  have hall := findFree_none_all_taken s parent stem sfx (K + 1) 1 hnone
  set M := (List.range' 1 (K + 1)).map
    (fun i => encPath ⟨parent, candName stem sfx i⟩) with hM
  have hnodup : M.Nodup := by
    refine List.Nodup.map_on ?_ (List.nodup_range' ..)
    intro x _ y _ hxy
    have := encPath_injective _ _ hxy
    have hnames : candName stem sfx x = candName stem sfx y := by
      simpa using congrArg FsPath.name this
    exact candName_injective stem sfx x y hnames
  have hsub : M ⊆ s.files.map (fun kv => encPath kv.1) ++ s.dirs := by
    intro a ha
    obtain ⟨i, hi, rfl⟩ := List.mem_map.mp ha
    have hib := List.mem_range'.mp hi
    exact pathTaken_mem_enc s _ (hall i (by omega) (by omega))
  have hlen := (List.subperm_of_subset hnodup hsub).length_le
  simp only [hM, List.length_map, List.length_range', List.length_append] at hlen
  omega

theorem get_unique_filename_char (s : Sys) (target_path : FsPath) :
    (s.pathTaken target_path = false →
      get_unique_filename s target_path = target_path) ∧
    (s.pathTaken target_path = true →
      ∃ N, 1 ≤ N ∧
        get_unique_filename s target_path =
          ⟨target_path.dir,
           candName (stemSuffix target_path.name).1 (stemSuffix target_path.name).2 N⟩ ∧
        s.pathTaken ⟨target_path.dir,
           candName (stemSuffix target_path.name).1 (stemSuffix target_path.name).2 N⟩ = false ∧
        ∀ m, 1 ≤ m → m < N →
          s.pathTaken ⟨target_path.dir,
            candName (stemSuffix target_path.name).1 (stemSuffix target_path.name).2 m⟩ = true) := by
  constructor
  · intro h; simp [get_unique_filename, h]
  · intro h
    simp only [get_unique_filename, h]
    cases hf : findFree s target_path.dir (stemSuffix target_path.name).1
        (stemSuffix target_path.name).2 1 (s.files.length + s.dirs.length + 1) with
    | none => exact absurd hf (findFree_total s target_path.dir _ _)
    | some p =>
      obtain ⟨N, h1, h2, h3, h4⟩ := findFree_some_least s target_path.dir
        (stemSuffix target_path.name).1 (stemSuffix target_path.name).2 _ 1 p hf
      exact ⟨N, h1, by simp [hf, h2], h3, h4⟩

theorem get_unique_filename_free (s : Sys) (p : FsPath) :
    s.pathTaken (get_unique_filename s p) = false := by
  cases h : s.pathTaken p with
  | false => rw [(get_unique_filename_char s p).1 h]; exact h
  | true =>
    obtain ⟨N, _, h2, h3, _⟩ := (get_unique_filename_char s p).2 h
    rw [h2]; exact h3

theorem get_unique_filename_dir (s : Sys) (p : FsPath) :
    (get_unique_filename s p).dir = p.dir := by
  cases h : s.pathTaken p with
  | false => rw [(get_unique_filename_char s p).1 h]
  | true =>
    obtain ⟨N, _, h2, _, _⟩ := (get_unique_filename_char s p).2 h
    rw [h2]

theorem mkdir_files (s : Sys) (d : Dir) : (s.mkdir d).files = s.files := rfl

theorem mkdir_dirs_superset (s : Sys) (d e : Dir) (h : e ∈ s.dirs) :
    e ∈ (s.mkdir d).dirs := by
  simp [Sys.mkdir, h]

theorem moveFile_files (s : Sys) (src dst : FsPath) (c : Nat)
    (h : lookupFile s.files src = some c) :
    (s.moveFile src dst).files = setFile dst c (eraseKey src s.files) := by
  simp [Sys.moveFile, h]

theorem copyFile_files (s : Sys) (src dst : FsPath) (c : Nat)
    (h : lookupFile s.files src = some c) :
    (s.copyFile src dst).files = setFile dst c s.files := by
  simp [Sys.copyFile, h]

theorem moveFile_dirs (s : Sys) (src dst : FsPath) :
    (s.moveFile src dst).dirs = s.dirs := by
  unfold Sys.moveFile
  cases lookupFile s.files src <;> rfl

theorem copyFile_dirs (s : Sys) (src dst : FsPath) :
    (s.copyFile src dst).dirs = s.dirs := by
  unfold Sys.copyFile
  cases lookupFile s.files src <;> rfl

theorem lookup_none_of_pathTaken_false (s : Sys) (p : FsPath)
    (h : s.pathTaken p = false) : lookupFile s.files p = none := by
  cases hl : lookupFile s.files p with
  | none => rfl
  | some c => simp [Sys.pathTaken, hl] at h

theorem isPrefixOf_append (d e : Dir) : d.isPrefixOf (d ++ e) = true := by
  induction d with
  | nil => simp [List.isPrefixOf]
  | cons a t ih => simp [List.isPrefixOf, ih]

theorem check_file_size_none_none (s : Sys) (c : FsPath) :
    check_file_size s c none none = true := by
  unfold check_file_size
  cases lookupFile s.files c <;> simp [Option.any]

/-- Whether a candidate passes all filter predicates of the loop body against
a given filesystem state. -/
def passesFilters (eng : RegexEngine) (opts : Options) (s : Sys) (c : FsPath) : Bool :=
  matches_pattern eng c.name opts.pattern &&
  !(optTruthy opts.exclude_pattern && matches_pattern eng c.name opts.exclude_pattern) &&
  check_file_size s c opts.min_size opts.max_size

/-- The category the loop body assigns to a candidate. -/
def candCategory (ft : List (String × List String)) (c : FsPath) : String :=
  get_category ft (stemSuffix c.name).2

/-- The collision-resolved target the loop body computes for a candidate
against a given filesystem state. -/
def intendedTarget (ft : List (String × List String)) (dest : Dir) (s : Sys)
    (c : FsPath) : FsPath :=
  get_unique_filename s ⟨dest ++ [candCategory ft c], c.name⟩

theorem passesFilters_no_filters (eng : RegexEngine) (opts : Options) (s : Sys)
    (c : FsPath) (hp : opts.pattern = none) (he : opts.exclude_pattern = none)
    (hmin : opts.min_size = none) (hmax : opts.max_size = none) :
    passesFilters eng opts s c = true := by
  simp [passesFilters, hp, he, hmin, hmax, matches_pattern, optTruthy,
    check_file_size_none_none]

theorem processFile_skip (eng : RegexEngine) (fault : FsPath → Bool)
    (ft : List (String × List String)) (dest : Dir) (opts : Options)
    (st : OrgState) (c : FsPath)
    (h : passesFilters eng opts st.sys c = false) :
    processFile eng fault ft dest opts st c = st := by
  unfold processFile
  cases h1 : matches_pattern eng c.name opts.pattern with
  | false => simp [h1]
  | true =>
    cases h2 : (optTruthy opts.exclude_pattern &&
        matches_pattern eng c.name opts.exclude_pattern) with
    | true => simp [h1, h2]
    | false =>
      cases h3 : check_file_size st.sys c opts.min_size opts.max_size with
      | false => simp [h1, h2, h3]
      | true => exfalso; simp [passesFilters, h1, h2, h3] at h

theorem passesFilters_parts (eng : RegexEngine) (opts : Options) (s : Sys)
    (c : FsPath) (h : passesFilters eng opts s c = true) :
    matches_pattern eng c.name opts.pattern = true ∧
    (optTruthy opts.exclude_pattern &&
      matches_pattern eng c.name opts.exclude_pattern) = false ∧
    check_file_size s c opts.min_size opts.max_size = true := by
  simp only [passesFilters, Bool.and_eq_true, Bool.not_eq_true'] at h
  exact ⟨h.1.1, h.1.2, h.2⟩

theorem processFile_dry (eng : RegexEngine) (fault : FsPath → Bool)
    (ft : List (String × List String)) (dest : Dir) (opts : Options)
    (st : OrgState) (c : FsPath) (hdry : opts.dry_run = true)
    (h : passesFilters eng opts st.sys c = true) :
    processFile eng fault ft dest opts st c =
      { st with
          files_processed := st.files_processed + 1,
          reports := st.reports ++
            [((if opts.copy_files then "would-copy" else "would-move"), c,
              intendedTarget ft dest st.sys c)] } := by
  obtain ⟨h1, h2, h3⟩ := passesFilters_parts eng opts st.sys c h
  unfold processFile
  simp [h1, h2, h3, hdry, intendedTarget, candCategory]

theorem processFile_fault (eng : RegexEngine) (fault : FsPath → Bool)
    (ft : List (String × List String)) (dest : Dir) (opts : Options)
    (st : OrgState) (c : FsPath) (hdry : opts.dry_run = false)
    (hfault : fault c = true)
    (h : passesFilters eng opts st.sys c = true) :
    processFile eng fault ft dest opts st c =
      { st with
          files_processed := st.files_processed + 1,
          sys := st.sys.mkdir (dest ++ [candCategory ft c]),
          errors_logged := st.errors_logged + 1 } := by
  obtain ⟨h1, h2, h3⟩ := passesFilters_parts eng opts st.sys c h
  unfold processFile
  simp [h1, h2, h3, hdry, hfault, candCategory]

theorem processFile_live (eng : RegexEngine) (fault : FsPath → Bool)
    (ft : List (String × List String)) (dest : Dir) (opts : Options)
    (st : OrgState) (c : FsPath) (hdry : opts.dry_run = false)
    (hfault : fault c = false)
    (h : passesFilters eng opts st.sys c = true) :
    processFile eng fault ft dest opts st c =
      { st with
          files_processed := st.files_processed + 1,
          sys :=
            (if opts.copy_files then
              (st.sys.mkdir (dest ++ [candCategory ft c])).copyFile c
                (intendedTarget ft dest st.sys c)
            else
              (st.sys.mkdir (dest ++ [candCategory ft c])).moveFile c
                (intendedTarget ft dest st.sys c)),
          operations_log := st.operations_log ++
            [⟨(if opts.copy_files then "copy" else "move"), c,
              intendedTarget ft dest st.sys c, candCategory ft c⟩],
          files_moved := st.files_moved + 1,
          reports := st.reports ++
            [((if opts.copy_files then "copied" else "moved"), c,
              intendedTarget ft dest st.sys c)] } := by
  obtain ⟨h1, h2, h3⟩ := passesFilters_parts eng opts st.sys c h
  unfold processFile
  simp [h1, h2, h3, hdry, hfault, intendedTarget, candCategory]

/-- Replaying the undo of a record list over a filesystem (non-dry),
projected to the filesystem component. -/
def undoSysFold (rs : List TransferRecord) (s : Sys) : Sys :=
  rs.foldl (fun acc r => (undoStep false ⟨0, acc, []⟩ r).sys) s

theorem undoSysFold_append (a b : List TransferRecord) (s : Sys) :
    undoSysFold (a ++ b) s = undoSysFold b (undoSysFold a s) := by
  simp [undoSysFold, List.foldl_append]

theorem undo_foldl_sys_eq (ops : List TransferRecord) (sys : Sys) :
    (ops.foldl (undoStep false) ⟨0, sys, []⟩).sys = undoSysFold ops sys := by
  induction ops generalizing sys with
  | nil => rfl
  | cons r rest ih =>
    calc (List.foldl (undoStep false) ⟨0, sys, []⟩ (r :: rest)).sys
        = (List.foldl (undoStep false) (undoStep false ⟨0, sys, []⟩ r) rest).sys := rfl
      _ = (List.foldl (undoStep false)
            ⟨0, (undoStep false ⟨0, sys, []⟩ r).sys, []⟩ rest).sys := by
            rw [undo_foldl_false_decomp rest (undoStep false ⟨0, sys, []⟩ r)]
      _ = undoSysFold rest ((undoStep false ⟨0, sys, []⟩ r).sys) := ih _
      _ = undoSysFold (r :: rest) sys := rfl

theorem undoStep_move_files (sys : Sys) (r : TransferRecord) (γ : Nat)
    (hop : r.operation = "move")
    (hdst : lookupFile sys.files r.destination = some γ) :
    ((undoStep false ⟨0, sys, []⟩ r).sys).files =
      setFile r.source γ (eraseKey r.destination sys.files) := by
  have htaken : sys.pathTaken r.destination = true := by
    simp [Sys.pathTaken, hdst]
  simp [undoStep, hop, htaken, hdst, Sys.moveFile, Sys.mkdir]

theorem organizeList_append (eng : RegexEngine) (fault : FsPath → Bool)
    (file_types : List (String × List String)) (dest : Dir) (opts : Options)
    (st : OrgState) (xs ys : List FsPath) :
    organizeList eng fault file_types dest opts st (xs ++ ys) =
      organizeList eng fault file_types dest opts
        (organizeList eng fault file_types dest opts st xs) ys := by
  simp [organizeList, List.foldl_append]

theorem organizeList_cons (eng : RegexEngine) (fault : FsPath → Bool)
    (ft : List (String × List String)) (dest : Dir) (opts : Options)
    (st : OrgState) (c : FsPath) (cs : List FsPath) :
    organizeList eng fault ft dest opts st (c :: cs) =
      organizeList eng fault ft dest opts
        (processFile eng fault ft dest opts st c) cs := rfl

theorem ne_of_prefix_mismatch (dest : Dir) (a b : FsPath)
    (ha : dest.isPrefixOf a.dir = true) (hb : dest.isPrefixOf b.dir = false) :
    a ≠ b := by
  intro h
  subst h
  simp [ha] at hb

theorem roundtrip_aux (eng : RegexEngine) (fault : FsPath → Bool)
    (ft : List (String × List String)) (dest : Dir) (opts : Options)
    (hdry : opts.dry_run = false) (hcopy : opts.copy_files = false)
    (hp : opts.pattern = none) (he : opts.exclude_pattern = none)
    (hmin : opts.min_size = none) (hmax : opts.max_size = none) :
    ∀ (cs : List FsPath) (st : OrgState),
      cs.Nodup →
      (∀ c ∈ cs, (lookupFile st.sys.files c).isSome) →
      (∀ c ∈ cs, dest.isPrefixOf c.dir = false) →
      ∃ Δ : List TransferRecord,
        (organizeList eng fault ft dest opts st cs).operations_log =
          st.operations_log ++ Δ ∧
        (∀ r ∈ Δ, r.operation = "move" ∧ dest.isPrefixOf r.destination.dir = true ∧
          lookupFile st.sys.files r.destination = none) ∧
        (∀ q, lookupFile (undoSysFold Δ.reverse
            (organizeList eng fault ft dest opts st cs).sys).files q =
          lookupFile st.sys.files q) := by
  intro cs
  induction cs with
  | nil =>
    intro st _ _ _
    exact ⟨[], by simp [organizeList], by simp,
      fun q => by simp [undoSysFold, organizeList]⟩
  | cons c cs ih =>
    intro st hnd hmem hpre
    have hpass : passesFilters eng opts st.sys c = true :=
      passesFilters_no_filters eng opts st.sys c hp he hmin hmax
    obtain ⟨γ, hγ⟩ : ∃ γ, lookupFile st.sys.files c = some γ := by
      have hs := hmem c (by simp)
      cases hl : lookupFile st.sys.files c with
      | none => rw [hl] at hs; simp at hs
      | some γ => exact ⟨γ, rfl⟩
    cases hf : fault c with
    | true =>
      have hstep := processFile_fault eng fault ft dest opts st c hdry hf hpass
      rw [organizeList_cons, hstep]
      set st2 : OrgState :=
        { st with
            files_processed := st.files_processed + 1,
            sys := st.sys.mkdir (dest ++ [candCategory ft c]),
            errors_logged := st.errors_logged + 1 } with hst2
      have hfiles2 : st2.sys.files = st.sys.files := rfl
      obtain ⟨Δ, h1, h2, h3⟩ := ih st2 (List.Nodup.of_cons hnd)
        (fun c' hc' => by rw [hfiles2]; exact hmem c' (by simp [hc']))
        (fun c' hc' => hpre c' (by simp [hc']))
      refine ⟨Δ, by simpa using h1, ?_, ?_⟩
      · intro r hr
        obtain ⟨ha, hb, hc⟩ := h2 r hr
        exact ⟨ha, hb, by rw [← hfiles2]; exact hc⟩
      · intro q
        rw [h3 q, hfiles2]
    | false =>
      have hstep := processFile_live eng fault ft dest opts st c hdry hf hpass
      rw [hcopy] at hstep
      simp only [if_false, Bool.false_eq_true] at hstep
      set t := intendedTarget ft dest st.sys c with ht
      set cat := candCategory ft c with hcat
      have htfree : st.sys.pathTaken t = false :=
        get_unique_filename_free st.sys ⟨dest ++ [cat], c.name⟩
      have htlookup : lookupFile st.sys.files t = none :=
        lookup_none_of_pathTaken_false st.sys t htfree
      have htdir : t.dir = dest ++ [cat] :=
        get_unique_filename_dir st.sys ⟨dest ++ [cat], c.name⟩
      have htpre : dest.isPrefixOf t.dir = true := by
        rw [htdir]; exact isPrefixOf_append dest [cat]
      have hmove : ((st.sys.mkdir (dest ++ [cat])).moveFile c t).files =
          setFile t γ (eraseKey c st.sys.files) :=
        moveFile_files (st.sys.mkdir (dest ++ [cat])) c t γ hγ
      rw [organizeList_cons, hstep]
      set st2 : OrgState :=
        { st with
            files_processed := st.files_processed + 1,
            sys := (st.sys.mkdir (dest ++ [cat])).moveFile c t,
            operations_log := st.operations_log ++ [⟨"move", c, t, cat⟩],
            files_moved := st.files_moved + 1,
            reports := st.reports ++ [("moved", c, t)] } with hst2
      have hfiles2 : st2.sys.files = setFile t γ (eraseKey c st.sys.files) := hmove
      obtain ⟨Δ, h1, h2, h3⟩ := ih st2 (List.Nodup.of_cons hnd)
        (fun c' hc' => by
          rw [hfiles2, lookupFile_setFile, lookupFile_eraseKey]
          have hc't : c' ≠ t :=
            ne_of_prefix_mismatch dest t c' htpre (hpre c' (by simp [hc'])) |>.symm
          have hc'c : c' ≠ c := by
            intro hh
            exact (List.nodup_cons.mp hnd).1 (hh ▸ hc')
          rw [if_neg hc't, if_neg hc'c]
          exact hmem c' (by simp [hc']))
        (fun c' hc' => hpre c' (by simp [hc']))
      refine ⟨⟨"move", c, t, cat⟩ :: Δ, ?_, ?_, ?_⟩
      · rw [h1]
        show (st.operations_log ++ [(⟨"move", c, t, cat⟩ : TransferRecord)]) ++ Δ = _
        rw [List.append_assoc]
        rfl
      · intro r hr
        rcases List.mem_cons.mp hr with hr1 | hr1
        · rw [hr1]
          exact ⟨rfl, htpre, htlookup⟩
        · obtain ⟨ha, hb, hc⟩ := h2 r hr1
          refine ⟨ha, hb, ?_⟩
          rw [hfiles2, lookupFile_setFile, lookupFile_eraseKey] at hc
          by_cases hrt : r.destination = t
          · rw [if_pos hrt] at hc; exact absurd hc (by simp)
          · rw [if_neg hrt] at hc
            by_cases hrc : r.destination = c
            · exact absurd hrc
                (ne_of_prefix_mismatch dest r.destination c hb
                  (hpre c (by simp)))
            · rw [if_neg hrc] at hc; exact hc
      · intro q
        show lookupFile (undoSysFold ((⟨"move", c, t, cat⟩ : TransferRecord) :: Δ).reverse
            (organizeList eng fault ft dest opts st2 cs).sys).files q =
          lookupFile st.sys.files q
        rw [List.reverse_cons, undoSysFold_append]
        set U := undoSysFold Δ.reverse (organizeList eng fault ft dest opts st2 cs).sys
          with hU
        have hUt : lookupFile U.files t = some γ := by
          rw [h3 t, hfiles2, lookupFile_setFile, if_pos rfl]
        have hstepfiles := undoStep_move_files U ⟨"move", c, t, cat⟩ γ rfl hUt
        show lookupFile ((undoStep false ⟨0, U, []⟩ ⟨"move", c, t, cat⟩).sys).files q = _
        rw [hstepfiles]
        rw [lookupFile_setFile, lookupFile_eraseKey]
        by_cases hqc : q = c
        · rw [if_pos hqc, hqc] at *
          exact hγ.symm
        · rw [if_neg hqc]
          by_cases hqt : q = t
          · rw [if_pos hqt, hqt]
            exact htlookup.symm
          · rw [if_neg hqt, h3 q, hfiles2, lookupFile_setFile, lookupFile_eraseKey,
              if_neg hqt, if_neg hqc]

theorem enumerate_nodup (s : Sys) (src : Dir) (r : Bool)
    (h : (s.files.map Prod.fst).Nodup) : (enumerate s src r).Nodup :=
  h.filter _

theorem enumerate_mem (s : Sys) (src : Dir) (r : Bool) (p : FsPath)
    (h : p ∈ enumerate s src r) : (lookupFile s.files p).isSome :=
  lookupFile_isSome_of_mem_keys s.files p (List.mem_of_mem_filter h)

theorem pathTaken_cases (s : Sys) (p : FsPath) (h : s.pathTaken p = true) :
    (lookupFile s.files p).isSome = true ∨ (p.dir ++ [p.name]) ∈ s.dirs := by
  simpa [Sys.pathTaken] using h

theorem pathTaken_true_intro_lookup (s : Sys) (p : FsPath)
    (h : (lookupFile s.files p).isSome = true) : s.pathTaken p = true := by
  simp [Sys.pathTaken, h]

theorem pathTaken_true_intro_dir (s : Sys) (p : FsPath)
    (h : (p.dir ++ [p.name]) ∈ s.dirs) : s.pathTaken p = true := by
  simp [Sys.pathTaken, h]

theorem pathTaken_false_parts (s : Sys) (p : FsPath) (h : s.pathTaken p = false) :
    lookupFile s.files p = none ∧ (p.dir ++ [p.name]) ∉ s.dirs := by
  have h' := h
  simp [Sys.pathTaken] at h'
  refine ⟨?_, h'.2⟩
  cases hl : lookupFile s.files p with
  | none => rfl
  | some c => rw [hl] at h'; simp at h'

theorem prefixesOf_length_le (d e : Dir) (h : e ∈ prefixesOf d) :
    e.length ≤ d.length := by
  obtain ⟨n, _, hn⟩ := List.mem_map.mp h
  rw [← hn]
  simp [List.length_take]

theorem mkdir_dirs_mem (s : Sys) (d e : Dir) (h : e ∈ (s.mkdir d).dirs) :
    e ∈ s.dirs ∨ e.length ≤ d.length := by
  rcases List.mem_append.mp (by simpa [Sys.mkdir] using h) with h1 | h1
  · exact Or.inr (prefixesOf_length_le d e h1)
  · exact Or.inl h1

theorem check_file_size_congr (s₁ s₂ : Sys) (c : FsPath)
    (h : lookupFile s₁.files c = lookupFile s₂.files c) (mn mx : Option Nat) :
    check_file_size s₁ c mn mx = check_file_size s₂ c mn mx := by
  unfold check_file_size
  rw [h]

theorem passesFilters_congr (eng : RegexEngine) (opts : Options) (s₁ s₂ : Sys)
    (c : FsPath) (h : lookupFile s₁.files c = lookupFile s₂.files c) :
    passesFilters eng opts s₁ c = passesFilters eng opts s₂ c := by
  unfold passesFilters
  rw [check_file_size_congr s₁ s₂ c h]

theorem get_unique_filename_eq_of (s : Sys) (p : FsPath) (N : Nat) (hN : 1 ≤ N)
    (htaken : s.pathTaken p = true)
    (hfree : s.pathTaken ⟨p.dir,
      candName (stemSuffix p.name).1 (stemSuffix p.name).2 N⟩ = false)
    (hbusy : ∀ m, 1 ≤ m → m < N → s.pathTaken ⟨p.dir,
      candName (stemSuffix p.name).1 (stemSuffix p.name).2 m⟩ = true) :
    get_unique_filename s p =
      ⟨p.dir, candName (stemSuffix p.name).1 (stemSuffix p.name).2 N⟩ := by
  obtain ⟨M, h1, h2, h3, h4⟩ := (get_unique_filename_char s p).2 htaken
  have hMN : M = N := by
    by_contra hne
    rcases Nat.lt_or_ge M N with hlt | hge
    · have hb := hbusy M h1 hlt
      rw [h3] at hb
      exact absurd hb (by simp)
    · have hNM : N < M := by omega
      have hb := h4 N hN hNM
      rw [hfree] at hb
      exact absurd hb (by simp)
  rw [h2, hMN]

theorem organizeList_dry_char (eng : RegexEngine) (fault : FsPath → Bool)
    (ft : List (String × List String)) (dest : Dir) (opts : Options)
    (hdry : opts.dry_run = true) :
    ∀ (cs : List FsPath) (st : OrgState),
      (organizeList eng fault ft dest opts st cs).sys = st.sys ∧
      (organizeList eng fault ft dest opts st cs).operations_log =
        st.operations_log ∧
      (organizeList eng fault ft dest opts st cs).reports =
        st.reports ++ (cs.filter (passesFilters eng opts st.sys)).map
          (fun c => ((if opts.copy_files then "would-copy" else "would-move"),
            c, intendedTarget ft dest st.sys c)) := by
  intro cs
  induction cs with
  | nil => intro st; exact ⟨rfl, rfl, by simp [organizeList]⟩
  | cons c cs ih =>
    intro st
    cases hpass : passesFilters eng opts st.sys c with
    | false =>
      rw [organizeList_cons,
        processFile_skip eng fault ft dest opts st c hpass]
      obtain ⟨h1, h2, h3⟩ := ih st
      exact ⟨h1, h2, by rw [h3]; simp [List.filter_cons, hpass]⟩
    | true =>
      rw [organizeList_cons,
        processFile_dry eng fault ft dest opts st c hdry hpass]
      obtain ⟨h1, h2, h3⟩ := ih
        { st with
            files_processed := st.files_processed + 1,
            reports := st.reports ++
              [((if opts.copy_files then "would-copy" else "would-move"), c,
                intendedTarget ft dest st.sys c)] }
      refine ⟨h1, h2, ?_⟩
      rw [h3]
      simp [List.filter_cons, hpass, List.append_assoc]

theorem organizeList_live_char (eng : RegexEngine)
    (ft : List (String × List String)) (dest : Dir) (opts : Options)
    (sys0 : Sys) (hdry : opts.dry_run = false) :
    ∀ (cs : List FsPath) (st : OrgState),
      (∀ q : FsPath, dest.isPrefixOf q.dir = false →
        q ∉ st.operations_log.map TransferRecord.source →
        lookupFile st.sys.files q = lookupFile sys0.files q) →
      (∀ q : FsPath, dest.isPrefixOf q.dir = true →
        q ∉ st.operations_log.map TransferRecord.destination →
        lookupFile st.sys.files q = lookupFile sys0.files q) →
      (∀ r ∈ st.operations_log, lookupFile sys0.files r.destination = none) →
      (∀ d ∈ st.sys.dirs, d ∈ sys0.dirs ∨ d.length ≤ dest.length + 1) →
      (∀ d ∈ sys0.dirs, d ∈ st.sys.dirs) →
      cs.Nodup →
      (∀ c ∈ cs, dest.isPrefixOf c.dir = false) →
      (∀ c ∈ cs, c ∉ st.operations_log.map TransferRecord.source) →
      (∀ c ∈ cs, (lookupFile sys0.files c).isSome) →
      (st.operations_log.map TransferRecord.destination ++
        (cs.filter (passesFilters eng opts sys0)).map
          (intendedTarget ft dest sys0)).Nodup →
      (organizeList eng (fun _ => false) ft dest opts st cs).operations_log =
        st.operations_log ++
          (cs.filter (passesFilters eng opts sys0)).map
            (fun c => ⟨(if opts.copy_files then "copy" else "move"), c,
              intendedTarget ft dest sys0 c, candCategory ft c⟩) := by
  intro cs
  induction cs with
  | nil =>
    intro st _ _ _ _ _ _ _ _ _ _
    simp [organizeList]
  | cons c cs ih =>
    intro st hI1 hI2 hI3 hI4 hI4b hnd hout hsrc hmem0 hH7
    have hcagree : lookupFile st.sys.files c = lookupFile sys0.files c :=
      hI1 c (hout c (by simp)) (hsrc c (by simp))
    have hpasseq : passesFilters eng opts st.sys c =
        passesFilters eng opts sys0 c :=
      passesFilters_congr eng opts st.sys sys0 c hcagree
    cases hpass : passesFilters eng opts sys0 c with
    | false =>
      rw [organizeList_cons, processFile_skip eng (fun _ => false) ft dest opts
        st c (by rw [hpasseq]; exact hpass)]
      rw [ih st hI1 hI2 hI3 hI4 hI4b (List.Nodup.of_cons hnd)
        (fun c' hc' => hout c' (by simp [hc']))
        (fun c' hc' => hsrc c' (by simp [hc']))
        (fun c' hc' => hmem0 c' (by simp [hc']))
        (by simpa [List.filter_cons, hpass] using hH7)]
      simp [List.filter_cons, hpass]
    | true =>
      -- shorthand facts about the dry-run target of `c`
      have htfree : sys0.pathTaken (intendedTarget ft dest sys0 c) = false :=
        get_unique_filename_free sys0 ⟨dest ++ [candCategory ft c], c.name⟩
      have htdirT : (intendedTarget ft dest sys0 c).dir =
          dest ++ [candCategory ft c] :=
        get_unique_filename_dir sys0 ⟨dest ++ [candCategory ft c], c.name⟩
      have htpre : dest.isPrefixOf (intendedTarget ft dest sys0 c).dir = true := by
        rw [htdirT]; exact isPrefixOf_append dest [candCategory ft c]
      have hH7' : (st.operations_log.map TransferRecord.destination ++
          (intendedTarget ft dest sys0 c ::
            (cs.filter (passesFilters eng opts sys0)).map
              (intendedTarget ft dest sys0))).Nodup := by
        simpa [List.filter_cons, hpass] using hH7
      have htnotdest : intendedTarget ft dest sys0 c ∉
          st.operations_log.map TransferRecord.destination := by
        have hdisj := List.disjoint_of_nodup_append hH7'
        intro hmem
        exact hdisj hmem (by simp)
      -- occupied probe paths in the destination tree stay occupied
      have htrans : ∀ q : FsPath, dest.isPrefixOf q.dir = true →
          sys0.pathTaken q = true → st.sys.pathTaken q = true := by
        intro q hqpre hq
        rcases pathTaken_cases sys0 q hq with h1 | h1
        · have hqnot : q ∉ st.operations_log.map TransferRecord.destination := by
            intro hmem
            obtain ⟨r, hr, hrq⟩ := List.mem_map.mp hmem
            rw [← hrq, hI3 r hr] at h1
            simp at h1
          exact pathTaken_true_intro_lookup st.sys q
            (by rw [hI2 q hqpre hqnot]; exact h1)
        · exact pathTaken_true_intro_dir st.sys q (hI4b _ h1)
      -- the dry-run target is still free in the live state
      have htfree' : st.sys.pathTaken (intendedTarget ft dest sys0 c) = false := by
        obtain ⟨hl0, hd0⟩ := pathTaken_false_parts sys0 _ htfree
        have hlookup : lookupFile st.sys.files (intendedTarget ft dest sys0 c) =
            none := by
          rw [hI2 _ htpre htnotdest]; exact hl0
        cases hp : st.sys.pathTaken (intendedTarget ft dest sys0 c) with
        | false => rfl
        | true =>
          rcases pathTaken_cases st.sys _ hp with h1 | h1
          · rw [hlookup] at h1; simp at h1
          · rcases hI4 _ h1 with h2 | h2
            · exact absurd h2 hd0
            · rw [htdirT] at h2
              simp [List.length_append] at h2
      -- the live run computes the same target as the dry run
      have hteq : intendedTarget ft dest st.sys c = intendedTarget ft dest sys0 c := by
        show get_unique_filename st.sys ⟨dest ++ [candCategory ft c], c.name⟩ =
          get_unique_filename sys0 ⟨dest ++ [candCategory ft c], c.name⟩
        cases hb0 : sys0.pathTaken ⟨dest ++ [candCategory ft c], c.name⟩ with
        | false =>
          have e0 : get_unique_filename sys0 ⟨dest ++ [candCategory ft c], c.name⟩ =
              ⟨dest ++ [candCategory ft c], c.name⟩ :=
            (get_unique_filename_char sys0 _).1 hb0
          have hlive : st.sys.pathTaken ⟨dest ++ [candCategory ft c], c.name⟩ =
              false := by
            have := htfree'
            rw [show intendedTarget ft dest sys0 c =
              (⟨dest ++ [candCategory ft c], c.name⟩ : FsPath) from e0] at this
            exact this
          rw [e0, (get_unique_filename_char st.sys _).1 hlive]
        | true =>
          obtain ⟨N, hN1, hN2, hN3, hN4⟩ :=
            (get_unique_filename_char sys0 ⟨dest ++ [candCategory ft c], c.name⟩).2 hb0
          have hcandpre : ∀ m, dest.isPrefixOf
              ((⟨(⟨dest ++ [candCategory ft c], c.name⟩ : FsPath).dir,
                candName (stemSuffix (⟨dest ++ [candCategory ft c], c.name⟩ : FsPath).name).1
                  (stemSuffix (⟨dest ++ [candCategory ft c], c.name⟩ : FsPath).name).2 m⟩ :
                FsPath)).dir = true := by
            intro m
            exact isPrefixOf_append dest [candCategory ft c]
          have hlivetaken : st.sys.pathTaken ⟨dest ++ [candCategory ft c], c.name⟩ =
              true :=
            htrans _ (isPrefixOf_append dest [candCategory ft c]) hb0
          have hlivebusy : ∀ m, 1 ≤ m → m < N →
              st.sys.pathTaken
                ⟨(⟨dest ++ [candCategory ft c], c.name⟩ : FsPath).dir,
                 candName (stemSuffix (⟨dest ++ [candCategory ft c], c.name⟩ : FsPath).name).1
                   (stemSuffix (⟨dest ++ [candCategory ft c], c.name⟩ : FsPath).name).2 m⟩ =
                true :=
            fun m h1 h2 => htrans _ (hcandpre m) (hN4 m h1 h2)
          have hlivefree : st.sys.pathTaken
              ⟨(⟨dest ++ [candCategory ft c], c.name⟩ : FsPath).dir,
               candName (stemSuffix (⟨dest ++ [candCategory ft c], c.name⟩ : FsPath).name).1
                 (stemSuffix (⟨dest ++ [candCategory ft c], c.name⟩ : FsPath).name).2 N⟩ =
              false := by
            rw [← hN2]
            exact htfree'
          rw [get_unique_filename_eq_of st.sys _ N hN1 hlivetaken hlivefree
            hlivebusy, hN2]
      -- unfold the processing of `c`
      have hstep := processFile_live eng (fun _ => false) ft dest opts st c hdry
        rfl (by rw [hpasseq]; exact hpass)
      rw [hteq] at hstep
      rw [organizeList_cons, hstep]
      obtain ⟨γ, hγ0⟩ : ∃ γ, lookupFile sys0.files c = some γ := by
        have hs := hmem0 c (by simp)
        cases hl : lookupFile sys0.files c with
        | none => rw [hl] at hs; simp at hs
        | some γ => exact ⟨γ, rfl⟩
      have hγ : lookupFile st.sys.files c = some γ := by rw [hcagree]; exact hγ0
      have hcnott : c ≠ intendedTarget ft dest sys0 c :=
        (ne_of_prefix_mismatch dest (intendedTarget ft dest sys0 c) c htpre
          (hout c (by simp))).symm
      -- the two possible new file maps
      have hfiles2 : (if opts.copy_files then
            (st.sys.mkdir (dest ++ [candCategory ft c])).copyFile c
              (intendedTarget ft dest sys0 c)
          else
            (st.sys.mkdir (dest ++ [candCategory ft c])).moveFile c
              (intendedTarget ft dest sys0 c)).files =
          (if opts.copy_files then
            setFile (intendedTarget ft dest sys0 c) γ st.sys.files
          else
            setFile (intendedTarget ft dest sys0 c) γ (eraseKey c st.sys.files)) := by
        cases opts.copy_files with
        | false =>
          simp only [if_false, Bool.false_eq_true]
          exact moveFile_files (st.sys.mkdir (dest ++ [candCategory ft c])) c
            (intendedTarget ft dest sys0 c) γ hγ
        | true =>
          simp only [if_true]
          exact copyFile_files (st.sys.mkdir (dest ++ [candCategory ft c])) c
            (intendedTarget ft dest sys0 c) γ hγ
      have hdirs2 : (if opts.copy_files then
            (st.sys.mkdir (dest ++ [candCategory ft c])).copyFile c
              (intendedTarget ft dest sys0 c)
          else
            (st.sys.mkdir (dest ++ [candCategory ft c])).moveFile c
              (intendedTarget ft dest sys0 c)).dirs =
          (st.sys.mkdir (dest ++ [candCategory ft c])).dirs := by
        cases opts.copy_files with
        | false =>
          simp only [if_false, Bool.false_eq_true]
          exact moveFile_dirs _ c (intendedTarget ft dest sys0 c)
        | true =>
          simp only [if_true]
          exact copyFile_dirs _ c (intendedTarget ft dest sys0 c)
      -- a uniform description of the new file map, mode-independent where possible
      have hlook2 : ∀ q : FsPath, q ≠ intendedTarget ft dest sys0 c → q ≠ c →
          lookupFile (if opts.copy_files then
            (st.sys.mkdir (dest ++ [candCategory ft c])).copyFile c
              (intendedTarget ft dest sys0 c)
          else
            (st.sys.mkdir (dest ++ [candCategory ft c])).moveFile c
              (intendedTarget ft dest sys0 c)).files q = lookupFile st.sys.files q := by
        intro q hqt hqc
        rw [hfiles2]
        cases opts.copy_files with
        | false =>
          simp only [if_false, Bool.false_eq_true]
          rw [lookupFile_setFile, lookupFile_eraseKey, if_neg hqt, if_neg hqc]
        | true =>
          simp only [if_true]
          rw [lookupFile_setFile, if_neg hqt]
      -- rebuild the invariants for the remaining candidates and recurse
      rw [ih _ ?hI1 ?hI2 ?hI3 ?hI4 ?hI4b (List.Nodup.of_cons hnd)
        (fun c' hc' => hout c' (by simp [hc'])) ?hsrc
        (fun c' hc' => hmem0 c' (by simp [hc'])) ?hH7]
      case hI1 =>
        intro q hqpre hqnot
        simp only [List.map_append, List.mem_append] at hqnot
        push_neg at hqnot
        have hqc : q ≠ c := by
          intro hqc
          exact hqnot.2 (by simp [hqc])
        have hqt : q ≠ intendedTarget ft dest sys0 c :=
          (ne_of_prefix_mismatch dest (intendedTarget ft dest sys0 c) q htpre
            hqpre).symm
        rw [hlook2 q hqt hqc]
        exact hI1 q hqpre hqnot.1
      case hI2 =>
        intro q hqpre hqnot
        simp only [List.map_append, List.mem_append] at hqnot
        push_neg at hqnot
        have hqt : q ≠ intendedTarget ft dest sys0 c := by
          intro hqt
          exact hqnot.2 (by simp [hqt])
        have hqc : q ≠ c :=
          ne_of_prefix_mismatch dest q c hqpre (hout c (by simp))
        rw [hlook2 q hqt hqc]
        exact hI2 q hqpre hqnot.1
      case hI3 =>
        intro r hr
        rcases List.mem_append.mp hr with h1 | h1
        · exact hI3 r h1
        · have : r = ⟨(if opts.copy_files then "copy" else "move"), c,
              intendedTarget ft dest sys0 c, candCategory ft c⟩ := by
            simpa using h1
          rw [this]
          exact (pathTaken_false_parts sys0 _ htfree).1
      case hI4 =>
        intro d hd
        rw [hdirs2] at hd
        rcases mkdir_dirs_mem st.sys (dest ++ [candCategory ft c]) d hd with h1 | h1
        · exact hI4 d h1
        · right
          simpa [List.length_append] using h1
      case hI4b =>
        intro d hd
        rw [hdirs2]
        exact mkdir_dirs_superset st.sys (dest ++ [candCategory ft c]) d (hI4b d hd)
      case hsrc =>
        intro c' hc'
        simp only [List.map_append, List.mem_append]
        push_neg
        refine ⟨hsrc c' (by simp [hc']), ?_⟩
        have hne : c' ≠ c := by
          intro hh
          exact (List.nodup_cons.mp hnd).1 (hh ▸ hc')
        simp [hne]
      case hH7 =>
        have := hH7'
        rw [show (st.operations_log.map TransferRecord.destination ++
            (intendedTarget ft dest sys0 c ::
              (cs.filter (passesFilters eng opts sys0)).map
                (intendedTarget ft dest sys0))) =
            ((st.operations_log.map TransferRecord.destination ++
              [intendedTarget ft dest sys0 c]) ++
              (cs.filter (passesFilters eng opts sys0)).map
                (intendedTarget ft dest sys0)) from by
          rw [List.append_assoc]; rfl] at this
        simpa using this
      · simp [List.filter_cons, hpass, List.append_assoc]

/- ------------------------------------------------------------------ -/
/- Concrete scenarios used by witnesses and counterexamples.           -/
/- ------------------------------------------------------------------ -/

/-- Engine instance for concrete scenarios: every pattern compiles. -/
def cexEngine : RegexEngine := ⟨fun _ => true, fun _ _ => true⟩

/-- A one-file source directory for straight-line witnesses. -/
def sysOneJpg : Sys := ⟨[(⟨["s"], "a.jpg"⟩, 1)], [["s"]]⟩

/-- C1 counterexample scenario: source `s`, destination `s/d` inside it, one
file already sitting under the destination category directory `s/d/Images`,
recursion on. -/
def cexSysC1 : Sys :=
  ⟨[(⟨["s", "d", "Images"], "x.jpg"⟩, 1), (⟨["s"], "x.jpg"⟩, 2)],
   [["s"], ["s", "d"], ["s", "d", "Images"]]⟩

/-- Options of the C1 counterexample run: live move mode, recursive, no
filters. -/
def cexOptsC1 : Options := ⟨false, true, false, none, none, none, none⟩

/-- The final organizer state of the C1 counterexample run. -/
def cexRunC1 : OrgState :=
  organizeList cexEngine (fun _ => false) DEFAULT_FILE_TYPES ["s", "d"] cexOptsC1
    ⟨cexSysC1, [], 0, 0, [], 0⟩ (enumerate cexSysC1 ["s"] true)

/- ------------------------------------------------------------------ -/
/- Claim theorems.                                                     -/
/- ------------------------------------------------------------------ -/

/-- C1 (amended): for every `organize_files` run in move mode
(`copy_files = false`, `dry_run = false`) with no filters, over a filesystem
without duplicate paths, provided additionally that no candidate file lies
under the destination directory, the run succeeds and undoing its persisted
ledger with `undo_operations` (dry_run = false) restores every transferred
file: the resulting file map equals the initial one at every path, and no
destination path recorded in the ledger holds a file any more. -/
theorem organize_move_undo_restores (eng : RegexEngine) (fault : FsPath → Bool)
    (ft : List (String × List String)) (source destination : Dir)
    (opts : Options) (sys : Sys)
    (hdry : opts.dry_run = false) (hcopy : opts.copy_files = false)
    (hp : opts.pattern = none) (he : opts.exclude_pattern = none)
    (hmin : opts.min_size = none) (hmax : opts.max_size = none)
    (hex : sys.dirPathExists source = true) (hdir : sys.isDir source = true)
    (hnodup : (sys.files.map Prod.fst).Nodup)
    (hsep : ∀ p ∈ enumerate sys source opts.recursive,
      destination.isPrefixOf p.dir = false) :
    ∃ st : OrgState,
      organize_files eng fault ft source destination opts sys =
        .ok (st.files_processed, st.files_moved, st) ∧
      (∀ q, lookupFile
          (undo_operations (some st.operations_log) false st.sys).sys.files q =
        lookupFile sys.files q) ∧
      (∀ r ∈ st.operations_log, lookupFile
          (undo_operations (some st.operations_log) false st.sys).sys.files
          r.destination = none) := by
  obtain ⟨Δ, h1, h2, h3⟩ := roundtrip_aux eng fault ft destination opts
    hdry hcopy hp he hmin hmax (enumerate sys source opts.recursive)
    ⟨sys, [], 0, 0, [], 0⟩
    (enumerate_nodup sys source opts.recursive hnodup)
    (fun c hc => enumerate_mem sys source opts.recursive c hc)
    hsep
  set stF := organizeList eng fault ft destination opts
    ⟨sys, [], 0, 0, [], 0⟩ (enumerate sys source opts.recursive) with hstF
  have hlog : stF.operations_log = Δ := by simpa using h1
  have hundo : (undo_operations (some stF.operations_log) false stF.sys).sys =
      undoSysFold stF.operations_log.reverse stF.sys := by
    show (stF.operations_log.reverse.foldl (undoStep false) ⟨0, stF.sys, []⟩).sys = _
    exact undo_foldl_sys_eq _ _
  refine ⟨stF, ?_, ?_, ?_⟩
  · simp [organize_files, hex, hdir, hstF]
  · intro q
    rw [hundo, hlog]
    exact h3 q
  · intro r hr
    rw [hundo, hlog]
    rw [hlog] at hr
    rw [h3 r.destination]
    exact (h2 r hr).2.2

/-- Witness for C1: a concrete flat move run (`s/a.jpg` into `d/Images`),
undone. -/
theorem organize_move_undo_restores_witness :
    ∃ st : OrgState,
      organize_files cexEngine (fun _ => false) DEFAULT_FILE_TYPES ["s"] ["d"]
        ⟨false, false, false, none, none, none, none⟩ sysOneJpg =
        .ok (st.files_processed, st.files_moved, st) ∧
      (∀ q, lookupFile
          (undo_operations (some st.operations_log) false st.sys).sys.files q =
        lookupFile sysOneJpg.files q) ∧
      (∀ r ∈ st.operations_log, lookupFile
          (undo_operations (some st.operations_log) false st.sys).sys.files
          r.destination = none) :=
  organize_move_undo_restores cexEngine (fun _ => false) DEFAULT_FILE_TYPES
    ["s"] ["d"] ⟨false, false, false, none, none, none, none⟩ sysOneJpg
    rfl rfl rfl rfl rfl rfl (by decide) (by decide) (by decide) (by decide)

/-- C1 counterexample: the claim as stated (for every run, with recursion and
overlapping source/destination allowed) is false.  In scenario `cexSysC1` the
run succeeds and the subsequent full undo does restore every file, yet the
recorded destination `s/d/Images/x.jpg` of the second move still holds a file
afterwards (the first candidate restored to its original location inside the
destination category directory), so the destination category subdirectories
are not free of the transferred files. -/
theorem organize_move_undo_roundtrip_counterexample :
    organize_files cexEngine (fun _ => false) DEFAULT_FILE_TYPES ["s"] ["s", "d"]
      cexOptsC1 cexSysC1 = .ok (2, 2, cexRunC1) ∧
    (⟨"move", ⟨["s"], "x.jpg"⟩, ⟨["s", "d", "Images"], "x.jpg"⟩, "Images"⟩ :
      TransferRecord) ∈ cexRunC1.operations_log ∧
    lookupFile (undo_operations (some cexRunC1.operations_log) false
        cexRunC1.sys).sys.files ⟨["s", "d", "Images"], "x.jpg"⟩ = some 1 :=
  ⟨rfl, by decide, rfl⟩

/-- Regex-engine instance recording one real fact about Python's `re`: the
pattern "(" does not compile (re.error: missing ), unterminated subpattern). -/
def toyRe : RegexEngine := ⟨fun q => q ≠ "(", fun _ _ => false⟩

/-- C6 counterexample scenario: candidates `in/f.txt` and `in/f_1.txt`, with
`out/Documents/f.txt` already present; flat live move mode vs dry run. -/
def cexSysC6 : Sys :=
  ⟨[(⟨["in"], "f.txt"⟩, 0), (⟨["in"], "f_1.txt"⟩, 1),
    (⟨["out", "Documents"], "f.txt"⟩, 2)],
   [["in"], ["out"], ["out", "Documents"]]⟩

/-- The dry run of the C6 counterexample scenario. -/
def cexDryC6 : OrgState :=
  organizeList cexEngine (fun _ => false) DEFAULT_FILE_TYPES ["out"]
    ⟨true, false, false, none, none, none, none⟩ ⟨cexSysC6, [], 0, 0, [], 0⟩
    (enumerate cexSysC6 ["in"] false)

/-- The live run of the C6 counterexample scenario. -/
def cexLiveC6 : OrgState :=
  organizeList cexEngine (fun _ => false) DEFAULT_FILE_TYPES ["out"]
    ⟨false, false, false, none, none, none, none⟩ ⟨cexSysC6, [], 0, 0, [], 0⟩
    (enumerate cexSysC6 ["in"] false)

/-- `dest/a.txt` present (C3 witness). -/
def sysA : Sys := ⟨[(⟨["dest"], "a.txt"⟩, 1)], [["dest"]]⟩

/-- `dest/a.txt` and `dest/a_1.txt` present (C3 witness). -/
def sysB : Sys := ⟨[(⟨["dest"], "a.txt"⟩, 1), (⟨["dest"], "a_1.txt"⟩, 2)], [["dest"]]⟩

/-- A source path that exists but is a file, not a directory (C8 witness). -/
def sysNotDir : Sys := ⟨[(⟨["s"], "f.txt"⟩, 1)], [["s"]]⟩

/-- C2: processing is isolated per candidate: with `dry_run = false`, when the
filesystem operation for candidate `c` raises (fault oracle true), the
exception is caught and the run continues — organizing `p ++ c :: q` equals
processing `c` after `p` and then going on with every candidate of `q` — and
the faulting candidate leaves the file map, the already-appended ledger
records and the moved counter exactly as they were: either a filter had
already skipped it (state unchanged) or only the processed counter, the
created category directory and the error log change. -/
theorem per_file_isolation (eng : RegexEngine) (fault : FsPath → Bool)
    (ft : List (String × List String)) (dest : Dir) (opts : Options)
    (st0 : OrgState) (p q : List FsPath) (c : FsPath)
    (hdry : opts.dry_run = false) (hfault : fault c = true) :
    organizeList eng fault ft dest opts st0 (p ++ c :: q) =
      organizeList eng fault ft dest opts
        (processFile eng fault ft dest opts
          (organizeList eng fault ft dest opts st0 p) c) q ∧
    (∀ st : OrgState,
      (processFile eng fault ft dest opts st c).sys.files = st.sys.files ∧
      (processFile eng fault ft dest opts st c).operations_log =
        st.operations_log ∧
      (processFile eng fault ft dest opts st c).files_moved = st.files_moved ∧
      (processFile eng fault ft dest opts st c = st ∨
        ((processFile eng fault ft dest opts st c).files_processed =
            st.files_processed + 1 ∧
          (processFile eng fault ft dest opts st c).errors_logged =
            st.errors_logged + 1))) := by
  constructor
  · rw [organizeList_append]; rfl
  · intro st
    cases hpass : passesFilters eng opts st.sys c with
    | false =>
      rw [processFile_skip eng fault ft dest opts st c hpass]
      exact ⟨rfl, rfl, rfl, Or.inl rfl⟩
    | true =>
      rw [processFile_fault eng fault ft dest opts st c hdry hfault hpass]
      exact ⟨rfl, rfl, rfl, Or.inr ⟨rfl, rfl⟩⟩

/-- Witness for C2: one faulting candidate appends nothing to the ledger. -/
theorem per_file_isolation_witness :
    (processFile cexEngine (fun _ => true) DEFAULT_FILE_TYPES ["d"]
      ⟨false, false, false, none, none, none, none⟩
      ⟨sysOneJpg, [], 0, 0, [], 0⟩ ⟨["s"], "a.jpg"⟩).operations_log = [] :=
  ((per_file_isolation cexEngine (fun _ => true) DEFAULT_FILE_TYPES ["d"]
      ⟨false, false, false, none, none, none, none⟩
      ⟨sysOneJpg, [], 0, 0, [], 0⟩ [] [] ⟨["s"], "a.jpg"⟩ rfl rfl).2
    ⟨sysOneJpg, [], 0, 0, [], 0⟩).2.1

/-- C3: `get_unique_filename` returns the target unchanged when nothing
exists at it; otherwise it terminates and returns `parent/stem_N{suffix}`
for the least integer N ≥ 1 whose candidate does not exist — every candidate
with a smaller counter exists.  Determinism holds because the result is a
function of the filesystem state and the path alone. -/
theorem get_unique_filename_least (s : Sys) (target_path : FsPath) :
    (s.pathTaken target_path = false →
      get_unique_filename s target_path = target_path) ∧
    (s.pathTaken target_path = true →
      ∃ N, 1 ≤ N ∧
        get_unique_filename s target_path =
          ⟨target_path.dir,
           candName (stemSuffix target_path.name).1
             (stemSuffix target_path.name).2 N⟩ ∧
        s.pathTaken ⟨target_path.dir,
           candName (stemSuffix target_path.name).1
             (stemSuffix target_path.name).2 N⟩ = false ∧
        ∀ m, 1 ≤ m → m < N →
          s.pathTaken ⟨target_path.dir,
            candName (stemSuffix target_path.name).1
              (stemSuffix target_path.name).2 m⟩ = true) :=
  get_unique_filename_char s target_path

/-- Witness for C3: with `dest/a.txt` present the loop yields `dest/a_1.txt`;
with `dest/a_1.txt` also present it yields `dest/a_2.txt` (monotone). -/
theorem get_unique_filename_least_witness :
    (sysA.pathTaken ⟨["dest"], "a.txt"⟩ = true ∧
      ∃ N, 1 ≤ N ∧
        get_unique_filename sysA ⟨["dest"], "a.txt"⟩ =
          ⟨(⟨["dest"], "a.txt"⟩ : FsPath).dir,
           candName (stemSuffix (⟨["dest"], "a.txt"⟩ : FsPath).name).1
             (stemSuffix (⟨["dest"], "a.txt"⟩ : FsPath).name).2 N⟩ ∧
        sysA.pathTaken ⟨(⟨["dest"], "a.txt"⟩ : FsPath).dir,
           candName (stemSuffix (⟨["dest"], "a.txt"⟩ : FsPath).name).1
             (stemSuffix (⟨["dest"], "a.txt"⟩ : FsPath).name).2 N⟩ = false ∧
        ∀ m, 1 ≤ m → m < N →
          sysA.pathTaken ⟨(⟨["dest"], "a.txt"⟩ : FsPath).dir,
            candName (stemSuffix (⟨["dest"], "a.txt"⟩ : FsPath).name).1
              (stemSuffix (⟨["dest"], "a.txt"⟩ : FsPath).name).2 m⟩ = true) ∧
    get_unique_filename sysA ⟨["dest"], "a.txt"⟩ = ⟨["dest"], "a_1.txt"⟩ ∧
    get_unique_filename sysB ⟨["dest"], "a.txt"⟩ = ⟨["dest"], "a_2.txt"⟩ :=
  ⟨⟨rfl, (get_unique_filename_least sysA ⟨["dest"], "a.txt"⟩).2 rfl⟩, rfl, rfl⟩

/-- C4: `get_category` is a total, side-effect-free function over all strings
agreeing with the spec's resolver: it returns the first category in table
iteration order whose extension set contains the case-normalized input (two
inputs with the same lowercase form resolve identically, e.g. ".JPG" and
".jpg"), and the sentinel "Other" when no category's set contains it. -/
theorem get_category_resolves (table : List (String × List String))
    (e e₁ e₂ : String) :
    get_category table e = resolve_spec table e ∧
    (strLower e₁ = strLower e₂ →
      get_category table e₁ = get_category table e₂) ∧
    ((∀ ce ∈ table, ((ce.2.map strLower).contains (strLower e)) = false) →
      get_category table e = "Other") := by
  refine ⟨?_, ?_, ?_⟩
  · rw [get_category, resolve_spec, get_category_go_eq_find]
  · intro h; rw [get_category, get_category, h]
  · intro h
    rw [get_category, get_category_go_eq_find]
    have hnone : table.find?
        (fun ce => (ce.2.map strLower).contains (strLower e)) = none :=
      List.find?_eq_none.mpr (fun ce hce => by rw [h ce hce]; simp)
    rw [hnone]

/-- Witness for C4: ".JPG" and ".jpg" resolve identically (to "Images"); an
unknown extension resolves to "Other". -/
theorem get_category_resolves_witness :
    strLower ".JPG" = strLower ".jpg" ∧
    get_category DEFAULT_FILE_TYPES ".JPG" = get_category DEFAULT_FILE_TYPES ".jpg" ∧
    get_category DEFAULT_FILE_TYPES ".JPG" = "Images" ∧
    get_category DEFAULT_FILE_TYPES ".xyz" = "Other" :=
  ⟨rfl, (get_category_resolves DEFAULT_FILE_TYPES ".JPG" ".JPG" ".jpg").2.1 rfl,
   rfl, rfl⟩

/-- C5: `undo_operations` (non-dry) replays the ledger in reverse append
order — undoing `l₁ ++ l₂` equals undoing `l₂` first and then `l₁` on the
resulting filesystem, counters adding up — and handles each record as: a
move record whose destination holds a file is moved back after recreating
the source's parent directory (stated for states in which no directory
occupies the restored source path, since `shutil.move` onto an existing
directory would drop the file inside it, which the file-map model does not
represent); a copy record whose destination holds a file has the destination
deleted; and a record whose destination no longer exists — `Path.exists()`
false, neither a file nor a directory at the path — is skipped silently: not
counted, not failing the run, not even printed. -/
theorem undo_replay_semantics (l₁ l₂ : List TransferRecord)
    (r : TransferRecord) (sys : Sys) :
    ((undo_operations (some (l₁ ++ l₂)) false sys).sys =
      (undo_operations (some l₁) false
        ((undo_operations (some l₂) false sys).sys)).sys ∧
     (undo_operations (some (l₁ ++ l₂)) false sys).undone_count =
      (undo_operations (some l₂) false sys).undone_count +
      (undo_operations (some l₁) false
        ((undo_operations (some l₂) false sys).sys)).undone_count) ∧
    (sys.pathTaken r.destination = false →
      undo_operations (some [r]) false sys = ⟨0, sys, []⟩) ∧
    (r.operation = "move" → (lookupFile sys.files r.destination).isSome →
      (r.source.dir ++ [r.source.name]) ∉ sys.dirs →
      undo_operations (some [r]) false sys =
        ⟨1, (sys.mkdir r.source.dir).moveFile r.destination r.source,
         [("undone", r.destination, r.source)]⟩) ∧
    (r.operation = "copy" → (lookupFile sys.files r.destination).isSome →
      undo_operations (some [r]) false sys =
        ⟨1, sys.unlink r.destination,
         [("removed-copy", r.destination, r.source)]⟩) := by
  have hd := undo_foldl_false_decomp l₁.reverse
    (l₂.reverse.foldl (undoStep false) ⟨0, sys, []⟩)
  refine ⟨⟨?_, ?_⟩, ?_, ?_, ?_⟩
  · simp only [undo_operations]
    rw [List.reverse_append, List.foldl_append, hd]
  · simp only [undo_operations]
    rw [List.reverse_append, List.foldl_append, hd]
  · intro h
    simp [undo_operations, undoStep, h]
  · intro hop hsome _
    have htaken : sys.pathTaken r.destination = true := by
      simp [Sys.pathTaken, hsome]
    simp [undo_operations, undoStep, hop, htaken]
  · intro hop hsome
    have htaken : sys.pathTaken r.destination = true := by
      simp [Sys.pathTaken, hsome]
    simp [undo_operations, undoStep, hop, htaken]

/-- Witness for C5: a concrete skipped record (destination absent — no file,
no directory — count 0) and a concrete undone move record. -/
theorem undo_replay_semantics_witness :
    ((Sys.mk [] []).pathTaken (⟨"move", ⟨["a"], "f"⟩, ⟨["b"], "g"⟩,
      "Other"⟩ : TransferRecord).destination = false ∧
     undo_operations (some [⟨"move", ⟨["a"], "f"⟩, ⟨["b"], "g"⟩, "Other"⟩])
       false (Sys.mk [] []) = ⟨0, Sys.mk [] [], []⟩) ∧
    undo_operations (some [⟨"move", ⟨["a"], "f"⟩, ⟨["b"], "g"⟩, "Other"⟩])
      false (Sys.mk [(⟨["b"], "g"⟩, 7)] []) =
      ⟨1, ((Sys.mk [(⟨["b"], "g"⟩, 7)] []).mkdir ["a"]).moveFile
        ⟨["b"], "g"⟩ ⟨["a"], "f"⟩, [("undone", ⟨["b"], "g"⟩, ⟨["a"], "f"⟩)]⟩ :=
  ⟨⟨rfl, (undo_replay_semantics [] []
      ⟨"move", ⟨["a"], "f"⟩, ⟨["b"], "g"⟩, "Other"⟩ (Sys.mk [] [])).2.1 rfl⟩,
   (undo_replay_semantics [] []
      ⟨"move", ⟨["a"], "f"⟩, ⟨["b"], "g"⟩, "Other"⟩
      (Sys.mk [(⟨["b"], "g"⟩, 7)] [])).2.2.1 rfl rfl (by decide)⟩

/-- C7 (amended): a missing or malformed include pattern is fail-open —
`matches_pattern` returns True so the file passes the include check — but for
the exclude check that same True return means "matches": a malformed
`exclude_pattern` causes every candidate to be skipped (the run is a no-op),
not fail-open as the claim states. -/
theorem invalid_pattern_fail_open (eng : RegexEngine) (filename p : String)
    (hinvalid : eng.valid p = false) (hne : p ≠ "") :
    matches_pattern eng filename (some p) = true ∧
    (∀ (fault : FsPath → Bool) (ft : List (String × List String)) (dest : Dir)
        (opts : Options) (st : OrgState) (files : List FsPath),
      opts.exclude_pattern = some p →
      organizeList eng fault ft dest opts st files = st) := by
  have hm : ∀ f, matches_pattern eng f (some p) = true := by
    intro f; simp [matches_pattern, hne, hinvalid]
  refine ⟨hm filename, ?_⟩
  intro fault ft dest opts st files hexc
  have hstep : ∀ st' c, processFile eng fault ft dest opts st' c = st' := by
    intro st' c
    apply processFile_skip
    simp [passesFilters, hexc, optTruthy, hne, hm]
  induction files generalizing st with
  | nil => rfl
  | cons c cs ih => rw [organizeList_cons, hstep st c]; exact ih st

/-- Witness for C7: the invalid pattern "(" as include pattern passes. -/
theorem invalid_pattern_fail_open_witness :
    toyRe.valid "(" = false ∧
    matches_pattern toyRe "a.txt" (some "(") = true :=
  ⟨rfl, (invalid_pattern_fail_open toyRe "a.txt" "(" rfl (by decide)).1⟩

/-- C7 counterexample: with the invalid pattern "(" supplied as
`exclude_pattern`, the single candidate `s/a.jpg` is rejected — the run
returns `files_processed = 0` and moves nothing — even though the pattern is
not a valid regex, contradicting "rejected only when exclude_pattern is a
valid regex that actually matches the file's base name". -/
theorem invalid_exclude_rejects_counterexample :
    toyRe.valid "(" = false ∧
    organize_files toyRe (fun _ => false) DEFAULT_FILE_TYPES ["s"] ["d"]
      ⟨false, false, false, none, some "(", none, none⟩ sysOneJpg =
      .ok (0, 0, ⟨sysOneJpg, [], 0, 0, [], 0⟩) :=
  ⟨rfl, rfl⟩

/-- C8: the structural preconditions abort atomically: a missing source makes
`organize_files` fail with FileNotFoundError, and a source that exists but is
not a directory with NotADirectoryError; both checks precede the enumeration
and the loop, and an error return carries no state — no counters, no ledger
entry, no filesystem change is produced. -/
theorem organize_files_preconditions (eng : RegexEngine) (fault : FsPath → Bool)
    (ft : List (String × List String)) (source destination : Dir)
    (opts : Options) (sys : Sys) :
    (sys.dirPathExists source = false →
      organize_files eng fault ft source destination opts sys =
        .error .fileNotFound) ∧
    (sys.dirPathExists source = true → sys.isDir source = false →
      organize_files eng fault ft source destination opts sys =
        .error .notADirectory) := by
  constructor
  · intro h; simp [organize_files, h]
  · intro h1 h2; simp [organize_files, h1, h2]

/-- Witness for C8: a missing source and a file-as-source both abort. -/
theorem organize_files_preconditions_witness :
    (Sys.mk [] []).dirPathExists ["missing"] = false ∧
    organize_files cexEngine (fun _ => false) DEFAULT_FILE_TYPES
      ["missing"] ["d"] cexOptsC1 ⟨[], []⟩ = .error .fileNotFound ∧
    sysNotDir.dirPathExists ["s", "f.txt"] = true ∧
    sysNotDir.isDir ["s", "f.txt"] = false ∧
    organize_files cexEngine (fun _ => false) DEFAULT_FILE_TYPES
      ["s", "f.txt"] ["d"] cexOptsC1 sysNotDir = .error .notADirectory :=
  ⟨rfl,
   (organize_files_preconditions cexEngine (fun _ => false) DEFAULT_FILE_TYPES
     ["missing"] ["d"] cexOptsC1 ⟨[], []⟩).1 rfl,
   rfl, rfl,
   (organize_files_preconditions cexEngine (fun _ => false) DEFAULT_FILE_TYPES
     ["s", "f.txt"] ["d"] cexOptsC1 sysNotDir).2 rfl rfl⟩

/-- C9 (code bug): `load_config` is meant to be fail-soft — its docstring
says "True if config loaded successfully, False otherwise" and the spec calls
`ConfigLoadFailed` non-fatal — but the clause `except (json.JSONDecoder,
IOError)` names `json.JSONDecoder`, which is not an exception class, so
CPython raises TypeError whenever an exception reaches the clause: a config
file holding invalid JSON (or an unreadable file) makes the call raise
instead of returning False.  Only the absent-file path (and the success path)
behaves as the claim states. -/
theorem load_config_not_fail_soft (file_types : List (String × List String)) :
    load_config .badJson file_types = .error .typeError ∧
    load_config .ioError file_types = .error .typeError ∧
    load_config .absent file_types = .ok (false, file_types) ∧
    load_config (.parsed DEFAULT_FILE_TYPES) file_types =
      .ok (true, DEFAULT_FILE_TYPES) :=
  ⟨rfl, rfl, rfl, rfl⟩

/-- C10: `undo_operations` with `dry_run = True` returns 0 — the counter is
never incremented and the filesystem is untouched — while an intended undo
action is printed for every ledger record (in reverse order, whether or not
its destination still exists); a missing or unparseable log also yields 0. -/
theorem undo_dry_run_returns_zero (ops : List TransferRecord) (sys : Sys) :
    (undo_operations (some ops) true sys).undone_count = 0 ∧
    (undo_operations (some ops) true sys).sys = sys ∧
    (undo_operations (some ops) true sys).reports =
      ops.reverse.map (fun r => ("would-undo", r.destination, r.source)) ∧
    (undo_operations none true sys).undone_count = 0 := by
  have hd := undo_foldl_dry ops.reverse (⟨0, sys, []⟩ : UndoResult)
  refine ⟨?_, ?_, ?_, rfl⟩ <;>
    · simp only [undo_operations]
      rw [hd]
      try simp

/-- C6 (amended): a dry run performs no filesystem mutation and appends
nothing to the operations ledger, and it reports the same (source, target)
action pairs that the identical live run executes — provided additionally
that no candidate file lies under the destination directory and that the
dry run's intended targets are pairwise distinct.  (Without the proviso the
sets can differ, because the live run's collision resolution sees its own
earlier transfers; see the counterexample.) -/
theorem dry_run_frame_and_reports (eng : RegexEngine)
    (ft : List (String × List String)) (source destination : Dir)
    (opts : Options) (sys : Sys)
    (hdry : opts.dry_run = true)
    (hex : sys.dirPathExists source = true) (hdir : sys.isDir source = true)
    (hnodup : (sys.files.map Prod.fst).Nodup)
    (hsep : ∀ p ∈ enumerate sys source opts.recursive,
      destination.isPrefixOf p.dir = false)
    (hdt : (((enumerate sys source opts.recursive).filter
        (passesFilters eng opts sys)).map
        (intendedTarget ft destination sys)).Nodup) :
    ∃ stD stL : OrgState,
      organize_files eng (fun _ => false) ft source destination opts sys =
        .ok (stD.files_processed, stD.files_moved, stD) ∧
      organize_files eng (fun _ => false) ft source destination
        { opts with dry_run := false } sys =
        .ok (stL.files_processed, stL.files_moved, stL) ∧
      stD.sys = sys ∧
      stD.operations_log = [] ∧
      stD.reports.map (fun rep => (rep.2.1, rep.2.2)) =
        stL.operations_log.map (fun r => (r.source, r.destination)) := by
  have hpf : passesFilters eng { opts with dry_run := false } =
      passesFilters eng opts := rfl
  set cs := enumerate sys source opts.recursive with hcs
  set stD := organizeList eng (fun _ => false) ft destination opts
    ⟨sys, [], 0, 0, [], 0⟩ cs with hstD
  set stL := organizeList eng (fun _ => false) ft destination
    { opts with dry_run := false } ⟨sys, [], 0, 0, [], 0⟩ cs with hstL
  obtain ⟨hd1, hd2, hd3⟩ := organizeList_dry_char eng (fun _ => false) ft
    destination opts hdry cs ⟨sys, [], 0, 0, [], 0⟩
  have hl := organizeList_live_char eng ft destination
    { opts with dry_run := false } sys rfl cs ⟨sys, [], 0, 0, [], 0⟩
    (fun q _ _ => rfl) (fun q _ _ => rfl) (fun r hr => by simp at hr)
    (fun d hd => Or.inl hd) (fun d hd => hd)
    (enumerate_nodup sys source opts.recursive hnodup)
    hsep (fun c _ => by simp)
    (fun c hc => enumerate_mem sys source opts.recursive c hc)
    (by rw [hpf]; simpa using hdt)
  refine ⟨stD, stL, ?_, ?_, hd1, by simpa using hd2, ?_⟩
  · simp [organize_files, hex, hdir, hstD, hcs]
  · simp [organize_files, hex, hdir, hstL, hcs]
  · rw [hd3, hl, hpf]
    simp [List.map_map, Function.comp]

/-- Witness for C6: the one-file flat scenario, dry vs live. -/
theorem dry_run_frame_and_reports_witness :
    ∃ stD stL : OrgState,
      organize_files cexEngine (fun _ => false) DEFAULT_FILE_TYPES ["s"] ["d"]
        ⟨true, false, false, none, none, none, none⟩ sysOneJpg =
        .ok (stD.files_processed, stD.files_moved, stD) ∧
      organize_files cexEngine (fun _ => false) DEFAULT_FILE_TYPES ["s"] ["d"]
        { (⟨true, false, false, none, none, none, none⟩ : Options) with
          dry_run := false } sysOneJpg =
        .ok (stL.files_processed, stL.files_moved, stL) ∧
      stD.sys = sysOneJpg ∧
      stD.operations_log = [] ∧
      stD.reports.map (fun rep => (rep.2.1, rep.2.2)) =
        stL.operations_log.map (fun r => (r.source, r.destination)) :=
  dry_run_frame_and_reports cexEngine DEFAULT_FILE_TYPES ["s"] ["d"]
    ⟨true, false, false, none, none, none, none⟩ sysOneJpg
    rfl (by decide) (by decide) (by decide) (by decide) (by decide)

/-- C6 counterexample: the claim as stated is false — the dry run reports the
intended pair `in/f_1.txt -> out/Documents/f_1.txt`, but the identical live
run never executes that pair (its first move occupies
`out/Documents/f_1.txt`, so collision resolution sends `f_1.txt` to
`f_1_1.txt` instead): the reported and executed action sets differ. -/
theorem dry_reports_differ_counterexample :
    organize_files cexEngine (fun _ => false) DEFAULT_FILE_TYPES ["in"] ["out"]
      ⟨true, false, false, none, none, none, none⟩ cexSysC6 =
      .ok (2, 0, cexDryC6) ∧
    organize_files cexEngine (fun _ => false) DEFAULT_FILE_TYPES ["in"] ["out"]
      ⟨false, false, false, none, none, none, none⟩ cexSysC6 =
      .ok (2, 2, cexLiveC6) ∧
    (("would-move", ⟨["in"], "f_1.txt"⟩, ⟨["out", "Documents"], "f_1.txt"⟩) :
      Report) ∈ cexDryC6.reports ∧
    ((⟨["in"], "f_1.txt"⟩, ⟨["out", "Documents"], "f_1.txt"⟩) :
      FsPath × FsPath) ∉
      cexLiveC6.operations_log.map (fun r => (r.source, r.destination)) :=
  ⟨rfl, rfl, by decide, by decide⟩

end Organizer
